import Mathlib

/-!
# GitHub-to-Discord relay (`src/services/github-discord.js`)

A shallow embedding of the polling pipeline of `github-discord.js`:
`render_template`, `read_last`, `save_last`, `post_to_channel`, `post_actions`,
`fetch_actions`, `filter_actions`, `strip_last` and `main`.

JavaScript values are modelled by `JSValue`.  Numbers are restricted to the
integers (ids and time values); a `Date` is its time value in milliseconds,
`none` standing for an Invalid Date (time value `NaN`).  The host library
(`JSON.parse`, `JSON.stringify`, `Date.parse`) is a parameter `JsLib` of the
functions that call it; `refLib` further down is an executable instance for
JSON texts whose numbers are integers up to 2^53 and for date-time strings in
the format of `toISOString`, used to evaluate the pipeline on concrete inputs
and to follow a cursor through `save_last` and `read_last`.
-/

namespace GithubDiscord

/-! ## JavaScript values -/

/-- The JavaScript values that flow through the script. -/
inductive JSValue where
  | undefined : JSValue
  | null : JSValue
  | bool (b : Bool) : JSValue
  | num (n : Int) : JSValue
  | str (s : String) : JSValue
  | date (t : Option Int) : JSValue
  | arr (items : List JSValue) : JSValue
  | obj (fields : List (String × JSValue)) : JSValue

/-- The errors a cycle can raise. -/
inductive JSError where
  | typeError : JSError
  | syntaxError : JSError
  | ioError : JSError
  deriving DecidableEq, Repr

/-- The host library functions the script calls. -/
structure JsLib where
  /-- The function `JSON.parse`; `none` is a thrown `SyntaxError`. -/
  jsonParse : String → Option JSValue
  /-- The function `JSON.stringify`. -/
  jsonStringify : JSValue → String
  /-- The function `Date.parse`; `none` is `NaN`. -/
  dateParse : String → Option Int
  /-- The string an array, an object, a `Date` or a number beyond the safe
  integers converts to (`ToPrimitive`, `ToString`). -/
  toPrimitiveString : JSValue → String
  /-- The number a string converts to (`StringToNumber`); `none` is `NaN`. -/
  stringToNumber : String → Option Int

/-- Whether a value is `undefined` or `null`. -/
def JSValue.isNullish : JSValue → Bool
  | .undefined => true
  | .null => true
  | _ => false

/-- Strict equality `v === s` against a string literal. -/
def JSValue.strictEqStr : JSValue → String → Bool
  | .str t, s => t == s
  | _, _ => false

/-- Property read `v.key` for the property names the script uses (`type`, `id`,
`actor`, `payload`, `display_login`, `pull_request`, `title`, `action`,
`issue_url`, `updated_at`, `timestamp`): none of them is an own or inherited
property of a primitive, an array or a `Date`, so only plain objects answer
with something else than `undefined`.  Reading from `undefined` or `null`
throws a `TypeError`. -/
def getProp (v : JSValue) (key : String) : Except JSError JSValue :=
  match v with
  | .undefined => .error .typeError
  | .null => .error .typeError
  | .obj fields =>
    match fields.lookup key with
    | some x => .ok x
    | none => .ok .undefined
  | _ => .ok .undefined

/-- The largest time value a `Date` can hold (`TimeClip`). -/
def MAX_TIME : Int := 8640000000000000

/-- The abstract operation `TimeClip`. -/
def timeClip (n : Int) : Option Int :=
  if n.natAbs ≤ MAX_TIME.natAbs then some n else none

/-- The time value of `new Date(v)`. -/
def newDate (lib : JsLib) (v : JSValue) : Option Int :=
  match v with
  | .undefined => none
  | .null => some 0
  | .bool b => some (if b then 1 else 0)
  | .num n => timeClip n
  | .str s => lib.dateParse s
  | .date t => t
  | .arr items => lib.dateParse (lib.toPrimitiveString (.arr items))
  | .obj fields => lib.dateParse (lib.toPrimitiveString (.obj fields))

/-! ## Events and cursors -/

/-- The object `filter_actions` pushes for a pull-request event. -/
structure NormalizedEvent where
  id : JSValue
  user : JSValue
  title : JSValue
  action : JSValue
  url : JSValue
  /-- The time value of the `Date` built from `updated_at`. -/
  timestamp : Option Int

/-- What the script reads from the value `read_last` resolves to: its `id` and
its `timestamp`, the latter `none` when the property is `undefined` and
`some t` when it is a `Date` of time value `t`. -/
structure Cursor where
  id : JSValue
  timestamp : Option (Option Int)

/-- The cursor `{id: 0, timestamp: new Date(null)}`. -/
def zeroCursor : Cursor := ⟨.num 0, some (some 0)⟩

/-- The number a cursor timestamp converts to in a comparison: the time value
of a `Date`, `NaN` for `undefined`. -/
def Cursor.timeValue (c : Cursor) : Option Int :=
  match c.timestamp with
  | some t => t
  | none => none

/-- The relational operator `a > b` on numbers, `none` being `NaN`. -/
def jsGt : Option Int → Option Int → Bool
  | some x, some y => decide (y < x)
  | _, _ => false

/-! ## `filter_actions` and `strip_last` -/

/-- The object literal built in the body of the loop of `filter_actions`. -/
def normalize (lib : JsLib) (a : JSValue) : Except JSError NormalizedEvent := do
  let id ← getProp a "id"
  let actor ← getProp a "actor"
  let user ← getProp actor "display_login"
  let payload ← getProp a "payload"
  let pr ← getProp payload "pull_request"
  let title ← getProp pr "title"
  let action ← getProp payload "action"
  let url ← getProp pr "issue_url"
  let updated ← getProp pr "updated_at"
  pure ⟨id, user, title, action, url, newDate lib updated⟩

/-- The function `filter_actions` on the items of a feed array. -/
def filter_actions (lib : JsLib) : List JSValue → Except JSError (List NormalizedEvent)
  | [] => .ok []
  | a :: rest => do
    let ty ← getProp a "type"
    if ty.strictEqStr "PullRequestEvent" then
      let e ← normalize lib a
      let es ← filter_actions lib rest
      pure (e :: es)
    else
      filter_actions lib rest

/-- The function `strip_last`. -/
def strip_last : List NormalizedEvent → Cursor → List NormalizedEvent
  | [], _ => []
  | e :: rest, last =>
    if jsGt e.timestamp last.timeValue then e :: strip_last rest last
    else strip_last rest last

/-! ## Decimal digits -/

/-- The character of a decimal digit. -/
def digitChar (d : Nat) : Char := Char.ofNat (48 + d % 10)

/-- The decimal digits of a natural number, least significant first. -/
def natDigitsRev : Nat → Nat → List Char
  | 0, _ => []
  | fuel + 1, n =>
    if n < 10 then [digitChar n] else digitChar n :: natDigitsRev fuel (n / 10)

/-- The decimal digits of a natural number. -/
def natDigits (n : Nat) : List Char := (natDigitsRev (n + 1) n).reverse

/-- The decimal text of an integer, as `ToString` writes an integer number. -/
def intDigits (n : Int) : List Char :=
  if n < 0 then '-' :: natDigits n.natAbs else natDigits n.natAbs

/-- The last `width` decimal digits of a natural number, zeros included. -/
def fixedDigits : Nat → Nat → List Char
  | 0, _ => []
  | width + 1, n => fixedDigits width (n / 10) ++ [digitChar n]

/-- The value of a run of decimal digits, `none` if another character occurs. -/
def digitsValue : List Char → Nat → Option Nat
  | [], acc => some acc
  | c :: rest, acc =>
    if c.isDigit then digitsValue rest (10 * acc + (c.toNat - 48)) else none

/-! ## `render_template` -/

/-- The integer 2^53, up to which every integer is a number exactly
(`Number.MAX_SAFE_INTEGER + 1`). -/
def EXACT_INTEGER_LIMIT : Nat := 9007199254740992

/-- The abstract operation `ToString` on the values a template is filled with.
An integer is written with all its digits as long as it is a number exactly;
beyond that the digits are those of the library. -/
def toStringJS (lib : JsLib) : JSValue → String
  | .undefined => "undefined"
  | .null => "null"
  | .bool b => if b then "true" else "false"
  | .num n =>
    if n.natAbs ≤ EXACT_INTEGER_LIMIT then String.mk (intDigits n)
    else lib.toPrimitiveString (.num n)
  | .str s => s
  | v => lib.toPrimitiveString v

/-- The abstract operation `GetSubstitution` for a regular expression without
capture groups: in the replacement text `$$` is a dollar sign, `$&` the matched
text, a dollar followed by a grave accent the text before the match, a dollar
followed by an apostrophe the text after it; any other character stands for
itself. -/
def getSubstitution (matched before after : List Char) : List Char → List Char
  | [] => []
  | [c] => [c]
  | c :: d :: rest =>
    if c = '$' then
      if d = '$' then '$' :: getSubstitution matched before after rest
      else if d = '&' then matched ++ getSubstitution matched before after rest
      else if d = Char.ofNat 96 then before ++ getSubstitution matched before after rest
      else if d = Char.ofNat 39 then after ++ getSubstitution matched before after rest
      else c :: getSubstitution matched before after (d :: rest)
    else c :: getSubstitution matched before after (d :: rest)

/-- The scan of `String.prototype.replace` with a global regular expression
that matches the literal text `pat`: `before` is the text already scanned,
`skip` the number of characters of the current match still to pass over. -/
def replaceScan (pat repl : List Char) : List Char → Nat → List Char → List Char
  | _, _, [] => []
  | before, skip + 1, c :: rest => replaceScan pat repl (before ++ [c]) skip rest
  | before, 0, c :: rest =>
    if pat.isPrefixOf (c :: rest) then
      getSubstitution pat before ((c :: rest).drop pat.length) repl
        ++ replaceScan pat repl (before ++ [c]) (pat.length - 1) rest
    else c :: replaceScan pat repl (before ++ [c]) 0 rest

/-- The call `template.replace(new RegExp('\\{' + key + '\\}', 'g'), value)` for a
key made of letters. -/
def replaceKey (template : List Char) (key : String) (value : List Char) : List Char :=
  replaceScan ('{' :: key.toList ++ ['}']) value [] 0 template

/-- The function `render_template`: the keys of `data` in insertion order. -/
def render_template (lib : JsLib) : List Char → List (String × JSValue) → List Char
  | template, [] => template
  | template, (key, v) :: data =>
    render_template lib
      (replaceKey template key
        (match v with
         | .null => []
         | w => (toStringJS lib w).toList))
      data

/-- The constant `DISCORD_GITHUB_EMBED_TEXT`. -/
def DISCORD_GITHUB_EMBED_TEXT : String := "{user} {verb} \"{title}\" - <{link}>"

/-! ## The cursor store -/

/-- The outcome of a promise: the first call of `resolve` or `reject` made by
its executor settles it, later calls are ignored. -/
def firstSettled {α : Type} (calls : List (Except JSError α)) : Option (Except JSError α) :=
  calls.head?

/-- The `try` block of `read_last` on the text handed to `JSON.parse`.  The
assignment `last.timestamp = ...` throws on `null` (and `undefined`), is
silently ignored on a primitive (the script is not in strict mode), and sets
the property on an object, an array or a `Date`. -/
def read_last_try (lib : JsLib) (data : String) : Cursor :=
  match lib.jsonParse data with
  | none => zeroCursor
  | some .undefined => zeroCursor
  | some .null => zeroCursor
  | some (.obj fields) =>
    ⟨(fields.lookup "id").getD .undefined,
      some (newDate lib ((fields.lookup "timestamp").getD .undefined))⟩
  | some (.arr _) => ⟨.undefined, some (newDate lib .undefined)⟩
  | some (.date _) => ⟨.undefined, some (newDate lib .undefined)⟩
  | some _ => ⟨.undefined, none⟩

/-- The calls of `resolve` made by `read_last`, in order; `file` is the cache
file, `none` when `fs.readFile` reports an error (its `data` is then
`undefined`, which `JSON.parse` reads as the text `undefined`). -/
def read_last_calls (lib : JsLib) (file : Option String) : List (Except JSError Cursor) :=
  match file with
  | none => [.ok zeroCursor, .ok (read_last_try lib "undefined")]
  | some data => [.ok (read_last_try lib data)]

/-- The function `read_last`: what its promise settles to. -/
def read_last (lib : JsLib) (file : Option String) : Option (Except JSError Cursor) :=
  firstSettled (read_last_calls lib file)

/-- The text `save_last` hands to `fs.writeFile`. -/
def save_last_data (lib : JsLib) (id : JSValue) (timestamp : Option Int) : String :=
  lib.jsonStringify (.obj [("id", id), ("timestamp", .date timestamp)])

/-- The function `save_last`: the cache file afterwards and what its promise
settles to.  `writeErr` is the error `fs.writeFile` reports, if any; a failed
write is taken to leave the file as it was. -/
def save_last (lib : JsLib) (id : JSValue) (timestamp : Option Int)
    (file : Option String) (writeErr : Option JSError) :
    Option String × Option (Except JSError Unit) :=
  match writeErr with
  | some err => (file, firstSettled [.error err])
  | none => (some (save_last_data lib id timestamp), firstSettled [.ok ()])

/-! ## Fetching, posting and the cycle -/

/-- What the callback of `request.get` receives: `err`, if any, and `body`
(`none` is `undefined`, which `JSON.parse` reads as the text `undefined`). -/
structure HttpResponse where
  err : Option JSError
  body : Option String

/-- The calls of `resolve` and `reject` made by `fetch_actions`, in order. -/
def fetch_actions_calls (lib : JsLib) (resp : HttpResponse) : List (Except JSError JSValue) :=
  (match resp.err with
   | some err => [.error err]
   | none => [])
  ++ [match lib.jsonParse (resp.body.getD "undefined") with
      | some data => .ok data
      | none => .error .syntaxError]

/-- The function `fetch_actions`: what its promise settles to. -/
def fetch_actions (lib : JsLib) (resp : HttpResponse) : Option (Except JSError JSValue) :=
  firstSettled (fetch_actions_calls lib resp)

/-- The number of indices `i = 0, 1, ...` with `i < v`, for `v` the value of
`actions.length`. -/
def loopBound (lib : JsLib) : JSValue → Nat
  | .undefined => 0
  | .null => 0
  | .bool b => if b then 1 else 0
  | .num n => n.toNat
  | .str s => ((lib.stringToNumber s).getD 0).toNat
  | .date t => (t.getD 0).toNat
  | v => ((lib.stringToNumber (lib.toPrimitiveString v)).getD 0).toNat

/-- The values `actions[0]`, ..., `actions[actions.length - 1]` the loop of
`filter_actions` visits on the fetched value: the items of an array, the
characters of a string, the indexed properties of an object with a `length`;
reading `length` from `null` or `undefined` throws. -/
def arrayItems (lib : JsLib) : JSValue → Except JSError (List JSValue)
  | .undefined => .error .typeError
  | .null => .error .typeError
  | .arr items => .ok items
  | .str s => .ok (s.toList.map (fun c => JSValue.str (String.singleton c)))
  | .obj fields =>
    match fields.lookup "length" with
    | none => .ok []
    | some len =>
      .ok ((List.range (loopBound lib len)).map
        (fun i => (fields.lookup (toString i)).getD .undefined))
  | _ => .ok []

/-- The function `post_to_channel`: the `content` of the form it posts. -/
def post_to_channel (lib : JsLib) (e : NormalizedEvent) : String :=
  String.mk (render_template lib DISCORD_GITHUB_EMBED_TEXT.toList
    [("user", e.user), ("verb", e.action), ("title", e.title), ("link", e.url)])

/-- The function `post_actions`: the contents posted, in order. -/
def post_actions (lib : JsLib) : List NormalizedEvent → List String
  | [] => []
  | e :: rest => post_to_channel lib e :: post_actions lib rest

/-- What one run of `main` does. -/
structure Cycle where
  /-- The argument of the call of `post_actions`, if it is reached. -/
  notified : List NormalizedEvent
  /-- The contents posted to the webhook, in order. -/
  posts : List String
  /-- The arguments of the call of `save_last`, if it is called. -/
  saved : Option (JSValue × Option Int)
  /-- The cache file after the run. -/
  file : Option String
  /-- How the block ended: `none` if it never ends, an error if it threw. -/
  outcome : Option (Except JSError Unit)
  /-- The rejections of promises nothing awaits or handles. -/
  unhandled : List JSError

/-- A run that stops before `post_actions` with the given outcome. -/
def Cycle.stopped (file : Option String) (outcome : Option (Except JSError Unit)) : Cycle :=
  ⟨[], [], none, file, outcome, []⟩

/-- The `try` block of `main`.  `file` is the cache file (`none` when it cannot
be read), `resp` the answer to the feed request, `writeErr` the error
`fs.writeFile` would report.  The promise of `save_last` is not awaited. -/
def main_try (lib : JsLib) (file : Option String) (resp : HttpResponse)
    (writeErr : Option JSError) : Cycle :=
  match read_last lib file with
  | none => Cycle.stopped file none
  | some (.error e) => Cycle.stopped file (some (.error e))
  | some (.ok last_action) =>
    match fetch_actions lib resp with
    | none => Cycle.stopped file none
    | some (.error e) => Cycle.stopped file (some (.error e))
    | some (.ok fetched) =>
      match arrayItems lib fetched >>= filter_actions lib with
      | .error e => Cycle.stopped file (some (.error e))
      | .ok filtered =>
        match strip_last filtered last_action with
        | [] => ⟨[], post_actions lib [], none, file, some (.ok ()), []⟩
        | a :: rest =>
          let r := save_last lib a.id a.timestamp file writeErr
          ⟨a :: rest, post_actions lib (a :: rest), some (a.id, a.timestamp), r.1,
            some (.ok ()),
            match r.2 with
            | some (.error e) => [e]
            | _ => []⟩

/-- The function `main`: the `try` block with its empty `catch`. -/
def main (lib : JsLib) (file : Option String) (resp : HttpResponse)
    (writeErr : Option JSError) : Cycle :=
  let c := main_try lib file resp writeErr
  match c.outcome with
  | some (.error _) => ⟨c.notified, c.posts, c.saved, c.file, some (.ok ()), c.unhandled⟩
  | _ => c

/-! ## A reference host library

An executable instance of `JsLib` for the fragment the examples need: JSON
texts whose numbers are integers, and date-time strings of the form
`YYYY-MM-DD` or `YYYY-MM-DDTHH:mm:ss[.sss]Z`. -/

/-- The double quote character. -/
def dquote : Char := Char.ofNat 34

/-- The reverse solidus character. -/
def backslash : Char := Char.ofNat 92

/-- The number of days from 1970-01-01 to the given proleptic Gregorian date. -/
def daysFromCivil (y : Int) (m d : Nat) : Int :=
  let y1 : Int := if m ≤ 2 then y - 1 else y
  let era : Int := y1 / 400
  let yoe : Int := y1 - era * 400
  let mp : Int := if m > 2 then (m : Int) - 3 else (m : Int) + 9
  let doy : Int := (153 * mp + 2) / 5 + (d : Int) - 1
  let doe : Int := yoe * 365 + yoe / 4 - yoe / 100 + doy
  era * 146097 + doe - 719468

/-- The proleptic Gregorian date (year, month, day) of a day number. -/
def civilFromDays (z0 : Int) : Int × Nat × Nat :=
  let z : Int := z0 + 719468
  let era : Int := z / 146097
  let doe : Int := z - era * 146097
  let yoe : Int := (doe - doe / 1460 + doe / 36524 - doe / 146096) / 365
  let doy : Int := doe - (365 * yoe + yoe / 4 - yoe / 100)
  let mp : Int := (5 * doy + 2) / 153
  let d : Int := doy - (153 * mp + 2) / 5 + 1
  let m : Int := if mp < 10 then mp + 3 else mp - 9
  let y : Int := yoe + era * 400
  (if m ≤ 2 then y + 1 else y, m.toNat, d.toNat)

/-- The method `Date.prototype.toISOString` on a valid time value: a year
outside 0..9999 is written with a sign and six digits. -/
def toISOString (t : Int) : List Char :=
  let day : Int := t / 86400000
  let ms : Nat := (t % 86400000).toNat
  let ymd := civilFromDays day
  let year : List Char :=
    if 0 ≤ ymd.1 ∧ ymd.1 ≤ 9999 then fixedDigits 4 ymd.1.toNat
    else (if ymd.1 < 0 then '-' else '+') :: fixedDigits 6 ymd.1.natAbs
  year ++ '-' :: (fixedDigits 2 ymd.2.1 ++ '-' :: (fixedDigits 2 ymd.2.2 ++ 'T'
    :: (fixedDigits 2 (ms / 3600000) ++ ':' :: (fixedDigits 2 (ms / 60000 % 60) ++ ':'
    :: (fixedDigits 2 (ms / 1000 % 60) ++ '.' :: (fixedDigits 3 (ms % 1000) ++ ['Z']))))))

/-- The time value of a calendar date and a time of day in UTC, `none` when a
field is out of range; a day past the end of its month runs into the next
month. -/
def makeTime (y : Int) (mo d h mi sec ms : Nat) : Option Int :=
  if 1 ≤ mo ∧ mo ≤ 12 ∧ 1 ≤ d ∧ d ≤ 31
      ∧ (h < 24 ∨ (h = 24 ∧ mi = 0 ∧ sec = 0 ∧ ms = 0)) ∧ mi < 60 ∧ sec < 60 then
    timeClip (daysFromCivil y mo d * 86400000
      + ((h * 3600000 + mi * 60000 + sec * 1000 + ms : Nat) : Int))
  else none

/-- A number of exactly `width` digits at the head of a text, and the rest. -/
def takeDigits (width : Nat) (s : List Char) : Option (Nat × List Char) :=
  if (s.take width).length = width then
    match digitsValue (s.take width) 0 with
    | some n => some (n, s.drop width)
    | none => none
  else none

/-- The text after the character `c` at its head. -/
def expectChar (c : Char) : List Char → Option (List Char)
  | [] => none
  | d :: rest => if d = c then some rest else none

/-- The year at the head of a date string: four digits, or a sign and six
digits (`-000000` is not a year). -/
def isoYear : List Char → Option (Int × List Char)
  | [] => none
  | c :: rest =>
    if c = '+' then
      match takeDigits 6 rest with
      | some (y, s) => some ((y : Int), s)
      | none => none
    else if c = '-' then
      match takeDigits 6 rest with
      | some (y, s) => if y = 0 then none else some (- (y : Int), s)
      | none => none
    else
      match takeDigits 4 (c :: rest) with
      | some (y, s) => some ((y : Int), s)
      | none => none

/-- The milliseconds of `.sss`, if the text starts with a dot, and the rest. -/
def isoMillis : List Char → Option (Nat × List Char)
  | [] => some (0, [])
  | c :: rest => if c = '.' then takeDigits 3 rest else some (0, c :: rest)

/-- The time of day `THH:mm:ss[.sss]Z` at the end of a date-time string, as
hours, minutes, seconds and milliseconds; the empty text is midnight. -/
def isoTimeOfDay (s : List Char) : Option (Nat × Nat × Nat × Nat) :=
  match s with
  | [] => some (0, 0, 0, 0)
  | _ :: _ => do
    let s1 ← expectChar 'T' s
    let h ← takeDigits 2 s1
    let s2 ← expectChar ':' h.2
    let mi ← takeDigits 2 s2
    let s3 ← expectChar ':' mi.2
    let sec ← takeDigits 2 s3
    let ms ← isoMillis sec.2
    match ms.2 with
    | [z] => if z = 'Z' then some (h.1, mi.1, sec.1, ms.1) else none
    | _ => none

/-- The function `Date.parse` on the strings `YYYY-MM-DD` and
`YYYY-MM-DDTHH:mm:ss[.sss]Z`, the year possibly written with a sign and six
digits; every other string is outside the fragment and answered with `NaN`. -/
def isoDateParse (s : List Char) : Option Int := do
  let y ← isoYear s
  let s1 ← expectChar '-' y.2
  let mo ← takeDigits 2 s1
  let s2 ← expectChar '-' mo.2
  let d ← takeDigits 2 s2
  let tod ← isoTimeOfDay d.2
  makeTime y.1 mo.1 d.1 tod.1 tod.2.1 tod.2.2.1 tod.2.2.2

/-- JSON white space. -/
def skipWs : List Char → List Char
  | [] => []
  | c :: rest =>
    if c = ' ' ∨ c = Char.ofNat 10 ∨ c = Char.ofNat 13 ∨ c = Char.ofNat 9 then skipWs rest
    else c :: rest

/-- The value of a hexadecimal digit. -/
def hexValue (c : Char) : Option Nat :=
  if c.isDigit then some (c.toNat - 48)
  else if 'a'.toNat ≤ c.toNat ∧ c.toNat ≤ 'f'.toNat then some (c.toNat - 87)
  else if 'A'.toNat ≤ c.toNat ∧ c.toNat ≤ 'F'.toNat then some (c.toNat - 55)
  else none

/-- The character a one-letter JSON escape stands for. -/
def escapeChar (e : Char) : Option Char :=
  if e = dquote then some dquote
  else if e = backslash then some backslash
  else if e = '/' then some '/'
  else if e = 'b' then some (Char.ofNat 8)
  else if e = 'f' then some (Char.ofNat 12)
  else if e = 'n' then some (Char.ofNat 10)
  else if e = 'r' then some (Char.ofNat 13)
  else if e = 't' then some (Char.ofNat 9)
  else none

/-- The code unit written by four hexadecimal digits. -/
def hexUnit (h1 h2 h3 h4 : Char) : Option Nat :=
  match hexValue h1, hexValue h2, hexValue h3, hexValue h4 with
  | some a, some b, some c, some d => some (((a * 16 + b) * 16 + c) * 16 + d)
  | _, _, _, _ => none

/-- The character an escape sequence stands for and the number of characters
it takes after the reverse solidus.  Two escaped surrogates in a row are one
character; a surrogate on its own is no character and is outside the
fragment. -/
def decodeEscape : List Char → Option (Char × Nat)
  | [] => none
  | e :: rest =>
    if e = 'u' then
      match rest with
      | h1 :: h2 :: h3 :: h4 :: rest2 =>
        match hexUnit h1 h2 h3 h4 with
        | none => none
        | some hi =>
          if hi < 55296 ∨ 57344 ≤ hi then some (Char.ofNat hi, 5)
          else if 56320 ≤ hi then none
          else
            match rest2 with
            | b :: u :: l1 :: l2 :: l3 :: l4 :: _ =>
              match hexUnit l1 l2 l3 l4 with
              | none => none
              | some lo =>
                if b = backslash ∧ u = 'u' ∧ 56320 ≤ lo ∧ lo < 57344 then
                  some (Char.ofNat (65536 + (hi - 55296) * 1024 + (lo - 56320)), 11)
                else none
            | _ => none
      | _ => none
    else
      match escapeChar e with
      | some x => some (x, 1)
      | none => none

/-- The rest of a JSON string after its opening quote: the characters read so
far (reversed), the number of characters of an escape sequence still to pass
over, then the text. -/
def parseStringBody : List Char → Nat → List Char → Option (String × List Char)
  | _, _, [] => none
  | acc, skip + 1, _ :: rest => parseStringBody acc skip rest
  | acc, 0, c :: rest =>
    if c = dquote then some (String.mk acc.reverse, rest)
    else if c = backslash then
      match decodeEscape rest with
      | some (x, k) => parseStringBody (x :: acc) k rest
      | none => none
    else if c.toNat < 32 then none
    else parseStringBody (c :: acc) 0 rest

/-- The digits at the head of a text, and the rest. -/
def spanDigits : List Char → List Char × List Char
  | [] => ([], [])
  | c :: rest =>
    if c.isDigit then ((c :: (spanDigits rest).1), (spanDigits rest).2) else ([], c :: rest)

/-- A JSON number without fraction and exponent, up to 2^53 in size; a number
written otherwise is outside the fragment. -/
def parseInteger (s : List Char) : Option (Int × List Char) :=
  let neg : Bool := s.head? = some '-'
  let body : List Char := if neg then s.drop 1 else s
  let ds := spanDigits body
  if ds.1 = [] ∨ (ds.1.head? = some '0' ∧ ds.1.length ≠ 1) then none
  else if ds.2.head? = some '.' ∨ ds.2.head? = some 'e' ∨ ds.2.head? = some 'E' then none
  else
    match digitsValue ds.1 0 with
    | some n =>
      if n ≤ EXACT_INTEGER_LIMIT then some (if neg then - (n : Int) else (n : Int), ds.2)
      else none
    | none => none

/-- The assignment of a property while an object literal is parsed: a repeated
name keeps its place and takes the later value. -/
def setField (key : String) (v : JSValue) : List (String × JSValue) → List (String × JSValue)
  | [] => [(key, v)]
  | (k, w) :: rest => if k = key then (k, v) :: rest else (k, w) :: setField key v rest

mutual
/-- A JSON value at the head of a text, and the rest of the text. -/
def parseValue : Nat → List Char → Option (JSValue × List Char)
  | 0, _ => none
  | fuel + 1, s =>
    match skipWs s with
    | [] => none
    | 'n' :: 'u' :: 'l' :: 'l' :: rest => some (.null, rest)
    | 't' :: 'r' :: 'u' :: 'e' :: rest => some (.bool true, rest)
    | 'f' :: 'a' :: 'l' :: 's' :: 'e' :: rest => some (.bool false, rest)
    | '[' :: rest =>
      match skipWs rest with
      | ']' :: rest2 => some (.arr [], rest2)
      | rest2 => parseElements fuel rest2 []
    | '{' :: rest =>
      match skipWs rest with
      | '}' :: rest2 => some (.obj [], rest2)
      | rest2 => parseMembers fuel rest2 []
    | c :: rest =>
      if c = dquote then
        match parseStringBody [] 0 rest with
        | some (str, rest2) => some (.str str, rest2)
        | none => none
      else
        match parseInteger (c :: rest) with
        | some (n, rest2) => some (.num n, rest2)
        | none => none
/-- The elements of a JSON array after the first bracket. -/
def parseElements : Nat → List Char → List JSValue → Option (JSValue × List Char)
  | 0, _, _ => none
  | fuel + 1, s, acc =>
    match parseValue fuel s with
    | none => none
    | some (v, rest) =>
      match skipWs rest with
      | ',' :: rest2 => parseElements fuel rest2 (acc ++ [v])
      | ']' :: rest2 => some (.arr (acc ++ [v]), rest2)
      | _ => none
/-- The members of a JSON object after the first brace. -/
def parseMembers : Nat → List Char → List (String × JSValue) → Option (JSValue × List Char)
  | 0, _, _ => none
  | fuel + 1, s, acc =>
    match skipWs s with
    | [] => none
    | q :: rest =>
      if q = dquote then
        match parseStringBody [] 0 rest with
        | none => none
        | some (key, rest2) =>
          match skipWs rest2 with
          | ':' :: rest3 =>
            match parseValue fuel rest3 with
            | none => none
            | some (v, rest4) =>
              match skipWs rest4 with
              | ',' :: rest5 => parseMembers fuel rest5 (setField key v acc)
              | '}' :: rest5 => some (.obj (setField key v acc), rest5)
              | _ => none
          | _ => none
      else none
end

/-- The function `JSON.parse` on texts whose numbers are integers. -/
def refJsonParse (s : String) : Option JSValue :=
  match parseValue (2 * s.length + 2) s.toList with
  | some (v, rest) => if skipWs rest = [] then some v else none
  | none => none

/-- A hexadecimal digit in lower case. -/
def hexDigit (d : Nat) : Char :=
  if d % 16 < 10 then Char.ofNat (48 + d % 16) else Char.ofNat (87 + d % 16)

/-- The characters `JSON.stringify` writes for one character of a string. -/
def quoteChar (c : Char) : List Char :=
  if c = dquote then [backslash, dquote]
  else if c = backslash then [backslash, backslash]
  else if c = Char.ofNat 8 then [backslash, 'b']
  else if c = Char.ofNat 12 then [backslash, 'f']
  else if c = Char.ofNat 10 then [backslash, 'n']
  else if c = Char.ofNat 13 then [backslash, 'r']
  else if c = Char.ofNat 9 then [backslash, 't']
  else if c.toNat < 32 then
    [backslash, 'u', '0', '0', hexDigit (c.toNat / 16), hexDigit c.toNat]
  else [c]

/-- The abstract operation `QuoteJSONString`. -/
def quoteJSON (s : List Char) : List Char :=
  dquote :: (s.map quoteChar).flatten ++ [dquote]

/-- Texts joined with commas. -/
def commaJoin : List (List Char) → List Char
  | [] => []
  | [x] => x
  | x :: y :: rest => x ++ ',' :: commaJoin (y :: rest)

mutual
/-- The text `JSON.stringify` writes for a value; `none` where the value is
left out (`undefined`). -/
def stringifyValue : JSValue → Option (List Char)
  | .undefined => none
  | .null => some "null".toList
  | .bool b => some (if b then "true".toList else "false".toList)
  | .num n => some (intDigits n)
  | .str s => some (quoteJSON s.toList)
  | .date t =>
    match t with
    | some v => some (quoteJSON (toISOString v))
    | none => some "null".toList
  | .arr items => some ('[' :: commaJoin (stringifyItems items) ++ [']'])
  | .obj fields => some ('{' :: commaJoin (stringifyFields fields) ++ ['}'])
/-- The texts of the elements of an array: `undefined` is written `null`. -/
def stringifyItems : List JSValue → List (List Char)
  | [] => []
  | v :: rest => (stringifyValue v).getD "null".toList :: stringifyItems rest
/-- The texts of the members of an object: a member whose value is `undefined`
is left out. -/
def stringifyFields : List (String × JSValue) → List (List Char)
  | [] => []
  | (k, v) :: rest =>
    match stringifyValue v with
    | some text => (quoteJSON k.toList ++ ':' :: text) :: stringifyFields rest
    | none => stringifyFields rest
end

/-- The function `JSON.stringify`; on `undefined`, for which it returns no
string, the text `undefined` that `fs.writeFile` would write. -/
def refJsonStringify (v : JSValue) : String :=
  String.mk ((stringifyValue v).getD "undefined".toList)

mutual
/-- The string an array or an object converts to: the elements of an array
joined with commas, `[object Object]` for an object. -/
def primitiveChars : JSValue → List Char
  | .undefined => "undefined".toList
  | .null => "null".toList
  | .bool b => if b then "true".toList else "false".toList
  | .num n => intDigits n
  | .str s => s.toList
  | .date t =>
    match t with
    | some v => toISOString v
    | none => "Invalid Date".toList
  | .arr items => commaJoin (joinChars items)
  | .obj _ => "[object Object]".toList
/-- The texts `Array.prototype.join` writes for the elements of an array:
`null` and `undefined` are the empty string. -/
def joinChars : List JSValue → List (List Char)
  | [] => []
  | v :: rest =>
    (match v with
     | .null => []
     | .undefined => []
     | w => primitiveChars w) :: joinChars rest
end

/-- The string an array or an object converts to.  The text of a `Date` and
of a number beyond the safe integers depends on the host and is outside the
fragment. -/
def refToPrimitiveString (v : JSValue) : String := String.mk (primitiveChars v)

/-- The abstract operation `StringToNumber` on decimal integers surrounded by
white space; the empty string is 0. -/
def refStringToNumber (s : String) : Option Int :=
  let body := (skipWs (skipWs s.toList).reverse).reverse
  if body = [] then some 0
  else
    match parseInteger body with
    | some (n, []) => some n
    | _ => none

/-- The reference host library. -/
def refLib : JsLib where
  jsonParse := refJsonParse
  jsonStringify := refJsonStringify
  dateParse := fun s => isoDateParse s.toList
  toPrimitiveString := refToPrimitiveString
  stringToNumber := refStringToNumber

/-! ## Example inputs -/

/-- The feed of Scenario 1 of the specification. -/
def scenarioFeed : String :=
  "[\x7b\"type\":\"PullRequestEvent\",\"id\":5,\"actor\":\x7b\"display_login\":\"a\"\x7d,"
    ++ "\"payload\":\x7b\"action\":\"opened\",\"pull_request\":\x7b\"title\":\"Fix\","
    ++ "\"issue_url\":\"u\",\"updated_at\":\"2020-01-02T00:00:00Z\"\x7d\x7d\x7d]"

/-- A cursor file written by hand, as the specification prints it. -/
def scenarioCursorFile : String := "\x7b\"id\":5,\"timestamp\":\"2020-01-02T00:00:00Z\"\x7d"

/-! ## Definitions used to state the properties -/

/-- Property read that answers `undefined` where `getProp` throws. -/
def propOf (v : JSValue) (key : String) : JSValue :=
  match getProp v key with
  | .ok x => x
  | .error _ => .undefined

/-- A feed item whose `type` is exactly the string `PullRequestEvent`. -/
def isPullRequestEvent (a : JSValue) : Bool :=
  (propOf a "type").strictEqStr "PullRequestEvent"

/-- A raw event: a JSON object which, when it is a pull-request event, carries
`actor`, `payload` and `payload.pull_request`. -/
def RawEventOk (a : JSValue) : Prop :=
  (∃ fields, a = .obj fields) ∧
  (isPullRequestEvent a = true →
    (propOf a "actor").isNullish = false ∧
    (propOf a "payload").isNullish = false ∧
    (propOf (propOf a "payload") "pull_request").isNullish = false)

/-- The normalized event the specification describes for a raw event. -/
def normalizedOf (lib : JsLib) (a : JSValue) : NormalizedEvent where
  id := propOf a "id"
  user := propOf (propOf a "actor") "display_login"
  title := propOf (propOf (propOf a "payload") "pull_request") "title"
  action := propOf (propOf a "payload") "action"
  url := propOf (propOf (propOf a "payload") "pull_request") "issue_url"
  timestamp := newDate lib (propOf (propOf (propOf a "payload") "pull_request") "updated_at")

/-- Whether the text `pat` occurs in `s`. -/
def occurs (pat : List Char) : List Char → Bool
  | [] => false
  | c :: rest => pat.isPrefixOf (c :: rest) || occurs pat rest

/-- The cursor a run starts from: the zero cursor when the cache file cannot
be read, what the `try` block of `read_last` makes of its text otherwise. -/
def cursorOf (lib : JsLib) (file : Option String) : Cursor :=
  match file with
  | none => zeroCursor
  | some data => read_last_try lib data

/-- The parsed feed of Scenario 1 followed by an event of another type. -/
def scenarioItems : List JSValue :=
  [.obj [("type", .str "PullRequestEvent"), ("id", .num 5),
      ("actor", .obj [("display_login", .str "a")]),
      ("payload", .obj [("action", .str "opened"),
        ("pull_request", .obj [("title", .str "Fix"), ("issue_url", .str "u"),
          ("updated_at", .str "2020-01-02T00:00:00Z")])])],
   .obj [("type", .str "PushEvent"), ("id", .num 6)]]

/-- A feed whose first pull-request event is older than its second one. -/
def unorderedFeed : String :=
  "[\x7b\"type\":\"PullRequestEvent\",\"id\":5,\"actor\":\x7b\"display_login\":\"a\"\x7d,"
    ++ "\"payload\":\x7b\"action\":\"opened\",\"pull_request\":\x7b\"title\":\"Fix\","
    ++ "\"issue_url\":\"u\",\"updated_at\":\"2020-01-02T00:00:00Z\"\x7d\x7d\x7d,"
    ++ "\x7b\"type\":\"PullRequestEvent\",\"id\":6,\"actor\":\x7b\"display_login\":\"b\"\x7d,"
    ++ "\"payload\":\x7b\"action\":\"closed\",\"pull_request\":\x7b\"title\":\"Add\","
    ++ "\"issue_url\":\"v\",\"updated_at\":\"2020-01-03T00:00:00Z\"\x7d\x7d\x7d]"

/-- An event whose title is the text of a placeholder. -/
def placeholderEvent : NormalizedEvent :=
  ⟨.num 5, .str "a", .str "{link}", .str "opened", .str "u", none⟩

/-- An event whose title holds a replacement pattern. -/
def dollarEvent : NormalizedEvent :=
  ⟨.num 5, .str "a", .str "$&", .str "opened", .str "u", none⟩

/-- The normalized event of Scenario 1. -/
def scenarioEvent : NormalizedEvent :=
  ⟨.num 5, .str "a", .str "Fix", .str "opened", .str "u", some 1577923200000⟩

/-- The answer to the feed request in Scenario 1. -/
def scenarioResponse : HttpResponse := ⟨none, some scenarioFeed⟩

/-- The cursor file of Scenario 2: a cursor dated 2020-01-03. -/
def laterCursorFile : String := "\x7b\"id\":5,\"timestamp\":\"2020-01-03T00:00:00Z\"\x7d"

/-- A character `JSON.stringify` writes as it is and `JSON.parse` reads as it is. -/
def plainChar (c : Char) : Bool :=
  decide (quoteChar c = [c]) && !(c == dquote) && !(c == backslash) && !(decide (c.toNat < 32))

/-- The text `save_last` writes for the id `n` and the date of time value `t`:
the members `id` and `timestamp` of one object, the date in the format of
`toISOString`. -/
def cursorText (n t : Int) : List Char :=
  '{' :: dquote :: ("id".toList ++ dquote :: ':' :: (intDigits n ++ ','
    :: dquote :: ("timestamp".toList ++ dquote :: ':' :: dquote
    :: (toISOString t ++ [dquote, '}']))))

/-! ## Properties of `strip_last` and `filter_actions` -/

theorem jsGt_iff (a b : Option Int) :
    jsGt a b = true ↔ ∃ t c, a = some t ∧ b = some c ∧ c < t := by
  cases a <;> cases b <;> simp [jsGt]

theorem strip_last_eq_filter (B : List NormalizedEvent) (C : Cursor) :
    strip_last B C = B.filter (fun e => jsGt e.timestamp C.timeValue) := by
  induction B with
  | nil => rfl
  | cons e rest ih =>
    by_cases h : jsGt e.timestamp C.timeValue = true
    · simp [strip_last, List.filter, h, ih]
    · simp [strip_last, List.filter, h, ih]

theorem strip_last_mem (B : List NormalizedEvent) (C : Cursor) (e : NormalizedEvent) :
    e ∈ strip_last B C ↔
      e ∈ B ∧ ∃ t c, e.timestamp = some t ∧ C.timeValue = some c ∧ c < t := by
  rw [strip_last_eq_filter, List.mem_filter, jsGt_iff]

/-- C1: `strip_last B C` is the sublist of `B`, in input order, of the events
whose timestamp is strictly later than the timestamp of `C`; every returned
event is strictly later than the cursor, and an event whose timestamp equals
that of the cursor is not returned. -/
theorem strip_last_spec (B : List NormalizedEvent) (C : Cursor) :
    strip_last B C = B.filter (fun e => jsGt e.timestamp C.timeValue)
    ∧ List.Sublist (strip_last B C) B
    ∧ (∀ e, e ∈ strip_last B C ↔
        e ∈ B ∧ ∃ t c, e.timestamp = some t ∧ C.timeValue = some c ∧ c < t)
    ∧ (∀ e, e ∈ strip_last B C → e.timestamp ≠ C.timeValue) := by
  have hf := strip_last_eq_filter B C
  refine ⟨hf, ?_, ?_, ?_⟩
  · rw [hf]; exact List.filter_sublist B
  · intro e
    rw [hf, List.mem_filter, jsGt_iff]
  · intro e he heq
    rw [hf, List.mem_filter, jsGt_iff] at he
    obtain ⟨_, t, c, h1, h2, h3⟩ := he
    rw [h1, h2] at heq
    injection heq with h
    omega

theorem getProp_of_not_nullish (v : JSValue) (key : String) (h : v.isNullish = false) :
    getProp v key = .ok (propOf v key) := by
  cases v <;> simp [JSValue.isNullish] at h <;> simp [propOf, getProp]
  split <;> simp_all

theorem normalize_eq (lib : JsLib) (a : JSValue) (h1 : a.isNullish = false)
    (h2 : (propOf a "actor").isNullish = false)
    (h3 : (propOf a "payload").isNullish = false)
    (h4 : (propOf (propOf a "payload") "pull_request").isNullish = false) :
    normalize lib a = .ok (normalizedOf lib a) := by
  simp [normalize, bind, Except.bind, pure, Except.pure, getProp_of_not_nullish _ _ h1,
    getProp_of_not_nullish _ _ h2, getProp_of_not_nullish _ _ h3,
    getProp_of_not_nullish _ _ h4, normalizedOf]

/-- C2: on a list of raw events whose pull-request items carry `actor` and
`payload.pull_request`, `filter_actions` returns, in input order, one
normalized event for each item whose `type` is exactly `PullRequestEvent` and
none for any other item, with the fields the specification names. -/
theorem filter_actions_spec (lib : JsLib) (feed : List JSValue)
    (h : ∀ a, a ∈ feed → RawEventOk a) :
    filter_actions lib feed
      = .ok ((feed.filter isPullRequestEvent).map (normalizedOf lib)) := by
  induction feed with
  | nil => rfl
  | cons a rest ih =>
    have ha := h a (List.mem_cons_self a rest)
    have ih2 := ih (fun b hb => h b (List.mem_cons_of_mem a hb))
    obtain ⟨⟨fields, hobj⟩, hpr⟩ := ha
    have hnn : a.isNullish = false := by rw [hobj]; rfl
    unfold filter_actions
    rw [getProp_of_not_nullish a "type" hnn]
    by_cases hty : isPullRequestEvent a = true
    · obtain ⟨h2, h3, h4⟩ := hpr hty
      have hty2 : (propOf a "type").strictEqStr "PullRequestEvent" = true := hty
      simp only [List.filter, hty, List.map]
      simp [bind, Except.bind, pure, Except.pure, hty2, ih2, normalize_eq lib a hnn h2 h3 h4]
    · have hty2 : (propOf a "type").strictEqStr "PullRequestEvent" = false := by
        simpa [isPullRequestEvent] using hty
      simp [bind, Except.bind, pure, Except.pure, hty2, ih2, List.filter, hty]

/-! ## Properties of `render_template` -/

theorem getSubstitution_plain (m b a : List Char) :
    ∀ (n : Nat) (r : List Char), r.length ≤ n → '$' ∉ r → getSubstitution m b a r = r := by
  intro n
  induction n with
  | zero =>
    intro r hl _
    cases r with
    | nil => rfl
    | cons c rest => simp at hl
  | succ n ih =>
    intro r hl hr
    match r with
    | [] => rfl
    | [c] => rfl
    | c :: d :: rest =>
      have hc : c ≠ '$' := fun h => hr (by simp [h])
      have hrest : '$' ∉ d :: rest := fun h => hr (List.mem_cons_of_mem c h)
      have hlen : (d :: rest).length ≤ n := by simp at hl ⊢; omega
      rw [getSubstitution]
      simp [hc, ih (d :: rest) hlen hrest]

theorem replaceScan_skip (pat repl : List Char) :
    ∀ (x b s : List Char), replaceScan pat repl b x.length (x ++ s)
      = replaceScan pat repl (b ++ x) 0 s := by
  intro x
  induction x with
  | nil => intro b s; simp
  | cons c rest ih =>
    intro b s
    simp only [List.length_cons, List.cons_append]
    rw [replaceScan]
    · rw [ih]; simp
    
theorem isPrefixOf_brace (p x s : List Char) (c : Char) (hc : c ≠ '{') :
    ('{' :: p).isPrefixOf (c :: (x ++ s)) = false := by
  simp [List.isPrefixOf, Ne.symm hc]

theorem replaceScan_plain_prefix (p repl : List Char) :
    ∀ (x b s : List Char), '{' ∉ x →
      replaceScan ('{' :: p) repl b 0 (x ++ s) = x ++ replaceScan ('{' :: p) repl (b ++ x) 0 s := by
  intro x
  induction x with
  | nil => intro b s _; simp
  | cons c rest ih =>
    intro b s hx
    have hc : c ≠ '{' := fun h => hx (by simp [h])
    have hrest : '{' ∉ rest := fun h => hx (List.mem_cons_of_mem c h)
    simp only [List.cons_append]
    rw [replaceScan]
    rw [isPrefixOf_brace p rest s c hc]
    simp [ih (b ++ [c]) s hrest]

theorem replaceScan_no_occurrence (pat repl : List Char) :
    ∀ (s b : List Char), occurs pat s = false → replaceScan pat repl b 0 s = s := by
  intro s
  induction s with
  | nil => intro b _; rfl
  | cons c rest ih =>
    intro b h
    simp only [occurs, Bool.or_eq_false_iff] at h
    rw [replaceScan, h.1]
    simp [ih (b ++ [c]) h.2]

theorem isPrefixOf_append_self (p s : List Char) : p.isPrefixOf (p ++ s) = true := by
  induction p with
  | nil => simp [List.isPrefixOf]
  | cons c rest ih => simp [List.isPrefixOf, ih]

theorem replaceScan_match (p repl b s : List Char) (hr : '$' ∉ repl) :
    replaceScan ('{' :: p) repl b 0 (('{' :: p) ++ s)
      = repl ++ replaceScan ('{' :: p) repl (b ++ '{' :: p) 0 s := by
  simp only [List.cons_append]
  rw [replaceScan]
  have hp : ('{' :: p).isPrefixOf ('{' :: (p ++ s)) = true :=
    isPrefixOf_append_self ('{' :: p) s
  rw [if_pos hp, getSubstitution_plain _ _ _ repl.length repl (Nat.le_refl _) hr]
  have hl : ('{' :: p).length - 1 = p.length := by simp
  rw [hl, replaceScan_skip]
  simp

/-- One call of `replace`: a template in which the placeholder occurs once,
after a text without braces, and a value without dollar signs. -/
theorem replaceKey_once (key : String) (x s value : List Char)
    (hx : '{' ∉ x) (hv : '$' ∉ value)
    (hs : occurs ('{' :: key.toList ++ ['}']) s = false) :
    replaceKey (x ++ ('{' :: key.toList ++ ['}']) ++ s) key value = x ++ value ++ s := by
  unfold replaceKey
  have hp : ('{' :: key.toList ++ ['}']) = '{' :: (key.toList ++ ['}']) := rfl
  rw [hp] at hs ⊢
  rw [List.append_assoc, replaceScan_plain_prefix _ _ x [] _ hx,
    replaceScan_match _ _ _ _ hv, replaceScan_no_occurrence _ _ _ _ hs]
  simp

/-- The content posted for an event whose four fields are strings free of
braces and dollar signs. -/
theorem render_plain (lib : JsLib) (user action title url : String)
    (hu : '{' ∉ user.toList ∧ '$' ∉ user.toList)
    (ha : '{' ∉ action.toList ∧ '$' ∉ action.toList)
    (ht : '{' ∉ title.toList ∧ '$' ∉ title.toList)
    (hl : '$' ∉ url.toList) :
    render_template lib DISCORD_GITHUB_EMBED_TEXT.toList
        [("user", .str user), ("verb", .str action), ("title", .str title), ("link", .str url)]
      = user.toList ++ [' '] ++ action.toList ++ [' ', dquote] ++ title.toList
          ++ [dquote, ' ', '-', ' ', '<'] ++ url.toList ++ ['>'] := by
  have e1 : DISCORD_GITHUB_EMBED_TEXT.toList
      = [] ++ ('{' :: "user".toList ++ ['}'])
        ++ ([' '] ++ ('{' :: "verb".toList ++ ['}'])
          ++ ([' ', dquote] ++ ('{' :: "title".toList ++ ['}'])
            ++ ([dquote, ' ', '-', ' ', '<'] ++ ('{' :: "link".toList ++ ['}']) ++ ['>']))) := by
    decide
  have hu1 : '{' ∉ user.data := hu.1
  have ha1 : '{' ∉ action.data := ha.1
  have ht1 : '{' ∉ title.data := ht.1
  simp only [render_template, toStringJS]
  rw [e1, replaceKey_once "user" [] _ _ (by simp) hu.2 (by decide)]
  rw [show ([] ++ user.toList ++ ([' '] ++ ('{' :: "verb".toList ++ ['}'])
          ++ ([' ', dquote] ++ ('{' :: "title".toList ++ ['}'])
            ++ ([dquote, ' ', '-', ' ', '<'] ++ ('{' :: "link".toList ++ ['}']) ++ ['>']))))
        = (user.toList ++ [' ']) ++ ('{' :: "verb".toList ++ ['}'])
          ++ ([' ', dquote] ++ ('{' :: "title".toList ++ ['}'])
            ++ ([dquote, ' ', '-', ' ', '<'] ++ ('{' :: "link".toList ++ ['}']) ++ ['>']))
      by simp]
  rw [replaceKey_once "verb" _ _ _ (by simp [hu1]) ha.2 (by decide)]
  rw [show (user.toList ++ [' '] ++ action.toList
          ++ ([' ', dquote] ++ ('{' :: "title".toList ++ ['}'])
            ++ ([dquote, ' ', '-', ' ', '<'] ++ ('{' :: "link".toList ++ ['}']) ++ ['>'])))
        = (user.toList ++ [' '] ++ action.toList ++ [' ', dquote])
          ++ ('{' :: "title".toList ++ ['}'])
          ++ ([dquote, ' ', '-', ' ', '<'] ++ ('{' :: "link".toList ++ ['}']) ++ ['>'])
      by simp]
  rw [replaceKey_once "title" _ _ _ (by simp [hu1, ha1, dquote]) ht.2 (by decide)]
  rw [show (user.toList ++ [' '] ++ action.toList ++ [' ', dquote] ++ title.toList
          ++ ([dquote, ' ', '-', ' ', '<'] ++ ('{' :: "link".toList ++ ['}']) ++ ['>']))
        = (user.toList ++ [' '] ++ action.toList ++ [' ', dquote] ++ title.toList
            ++ [dquote, ' ', '-', ' ', '<'])
          ++ ('{' :: "link".toList ++ ['}']) ++ ['>']
      by simp]
  rw [replaceKey_once "link" _ _ _ (by simp [hu1, ha1, ht1, dquote]) hl (by decide)]

/-- Where `user`, `action` and `title` are strings without braces and dollar
signs and `url` is a string without dollar signs, the content `post_to_channel`
renders is `user + ' ' + action + ' "' + title + '" - <' + url + '>'`. -/
theorem post_to_channel_plain (lib : JsLib) (id : JSValue) (ts : Option Int)
    (user action title url : String)
    (hu : '{' ∉ user.toList ∧ '$' ∉ user.toList)
    (ha : '{' ∉ action.toList ∧ '$' ∉ action.toList)
    (ht : '{' ∉ title.toList ∧ '$' ∉ title.toList)
    (hl : '$' ∉ url.toList) :
    post_to_channel lib ⟨id, .str user, .str title, .str action, .str url, ts⟩
      = user ++ " " ++ action ++ " \"" ++ title ++ "\" - <" ++ url ++ ">" := by
  apply String.ext
  simp only [post_to_channel, render_plain lib user action title url hu ha ht hl,
    String.data_append]
  rfl

/-- The content posted for the event of Scenario 1: `a opened "Fix" - <u>`. -/
theorem post_to_channel_plain_witness :
    post_to_channel refLib ⟨.num 5, .str "a", .str "Fix", .str "opened", .str "u", none⟩
      = "a opened \"Fix\" - <u>" :=
  post_to_channel_plain refLib (.num 5) none "a" "opened" "Fix" "u"
    (by decide) (by decide) (by decide) (by decide)

/-- C6 at two titles the feed can carry: the title `{link}`, the text of a
later placeholder, is substituted again and the url is posted in its place;
the title `$&`, a replacement pattern of `String.prototype.replace`, is posted
as the matched placeholder `{title}`.  Neither content is
`user + ' ' + action + ' "' + title + '" - <' + url + '>'`. -/
theorem post_to_channel_not_verbatim :
    post_to_channel refLib placeholderEvent = "a opened \"u\" - <u>"
    ∧ post_to_channel refLib placeholderEvent
        ≠ "a" ++ " " ++ "opened" ++ " \"" ++ "{link}" ++ "\" - <" ++ "u" ++ ">"
    ∧ post_to_channel refLib dollarEvent = "a opened \"{title}\" - <u>"
    ∧ post_to_channel refLib dollarEvent
        ≠ "a" ++ " " ++ "opened" ++ " \"" ++ "$&" ++ "\" - <" ++ "u" ++ ">" := by
  decide

/-- The hypothesis and the conclusion of C2 on the feed of Scenario 1 followed
by a push event. -/
theorem filter_actions_spec_witness :
    filter_actions refLib scenarioItems
      = .ok ((scenarioItems.filter isPullRequestEvent).map (normalizedOf refLib)) :=
  filter_actions_spec refLib scenarioItems (by
    intro a ha
    simp only [scenarioItems, List.mem_cons, List.mem_singleton, List.not_mem_nil,
      or_false] at ha
    rcases ha with h | h <;> subst h
    · exact ⟨⟨_, rfl⟩, fun _ => ⟨rfl, rfl, rfl⟩⟩
    · exact ⟨⟨_, rfl⟩, fun h => by simp [isPullRequestEvent, propOf, getProp, List.lookup,
        JSValue.strictEqStr] at h⟩)

/-! ## Properties of the cursor store and of the cycle -/

theorem read_last_eq (lib : JsLib) (file : Option String) :
    read_last lib file = some (.ok (cursorOf lib file)) := by
  cases file <;> rfl

theorem post_actions_eq_map (lib : JsLib) (l : List NormalizedEvent) :
    post_actions lib l = l.map (post_to_channel lib) := by
  induction l with
  | nil => rfl
  | cons e rest ih => simp [post_actions, ih]

theorem fetch_actions_failure (lib : JsLib) (resp : HttpResponse)
    (h : resp.err ≠ none ∨ lib.jsonParse (resp.body.getD "undefined") = none) :
    ∃ e, fetch_actions lib resp = some (.error e) := by
  unfold fetch_actions fetch_actions_calls firstSettled
  cases herr : resp.err with
  | some err => exact ⟨err, by simp⟩
  | none =>
    rcases h with h | h
    · exact absurd herr h
    · exact ⟨.syntaxError, by simp [h]⟩

theorem filter_actions_mem (lib : JsLib) :
    ∀ (items : List JSValue) (evs : List NormalizedEvent),
      filter_actions lib items = .ok evs →
      ∀ e, e ∈ evs → ∃ a, a ∈ items ∧ isPullRequestEvent a = true ∧ normalize lib a = .ok e := by
  intro items
  induction items with
  | nil =>
    intro evs h e he
    simp [filter_actions] at h
    subst h
    simp at he
  | cons a rest ih =>
    intro evs h e he
    unfold filter_actions at h
    cases hty : getProp a "type" with
    | error err => simp [hty, bind, Except.bind] at h
    | ok ty =>
      have hprop : propOf a "type" = ty := by simp [propOf, hty]
      by_cases hpr : ty.strictEqStr "PullRequestEvent" = true
      · cases hn : normalize lib a with
        | error err => simp [hty, hpr, hn, bind, Except.bind] at h
        | ok e0 =>
          cases hr : filter_actions lib rest with
          | error err => simp [hty, hpr, hn, hr, bind, Except.bind] at h
          | ok es =>
            simp [hty, hpr, hn, hr, bind, Except.bind, pure, Except.pure] at h
            subst h
            rcases List.mem_cons.1 he with h1 | h1
            · subst h1
              exact ⟨a, List.mem_cons_self a rest, by simp [isPullRequestEvent, hprop, hpr], hn⟩
            · obtain ⟨b, hb, hb2⟩ := ih es hr e h1
              exact ⟨b, List.mem_cons_of_mem a hb, hb2⟩
      · simp [hty, hpr, bind, Except.bind] at h
        obtain ⟨b, hb, hb2⟩ := ih evs h e he
        exact ⟨b, List.mem_cons_of_mem a hb, hb2⟩

/-- The shape of a run of `main`: it ends without an error; it either stops
short of `save_last`, leaving the file alone, or posts a non-empty batch and
calls `save_last` on the first event of the batch. -/
theorem main_shape (lib : JsLib) (file : Option String) (resp : HttpResponse)
    (writeErr : Option JSError) :
    (main lib file resp writeErr).outcome = some (.ok ())
    ∧ (main lib file resp writeErr).posts
        = (main lib file resp writeErr).notified.map (post_to_channel lib)
    ∧ (((main lib file resp writeErr).notified = []
          ∧ (main lib file resp writeErr).saved = none
          ∧ (main lib file resp writeErr).file = file
          ∧ (main lib file resp writeErr).unhandled = [])
        ∨ ∃ fetched items evs a rest,
            fetch_actions lib resp = some (.ok fetched)
            ∧ arrayItems lib fetched = .ok items
            ∧ filter_actions lib items = .ok evs
            ∧ strip_last evs (cursorOf lib file) = a :: rest
            ∧ (main lib file resp writeErr).notified = a :: rest
            ∧ (main lib file resp writeErr).saved = some (a.id, a.timestamp)
            ∧ (main lib file resp writeErr).file
                = (save_last lib a.id a.timestamp file writeErr).1
            ∧ (main lib file resp writeErr).unhandled
                = (match writeErr with
                   | some e => [e]
                   | none => [])) := by
  unfold main main_try
  rw [read_last_eq]
  cases hf : fetch_actions lib resp with
  | none =>
    exfalso
    unfold fetch_actions fetch_actions_calls firstSettled at hf
    cases herr : resp.err <;> simp [herr] at hf
  | some r =>
    cases r with
    | error e => simp [Cycle.stopped]
    | ok fetched =>
      cases hi : arrayItems lib fetched with
      | error e => simp [Cycle.stopped, bind, Except.bind, hi]
      | ok items =>
        cases he : filter_actions lib items with
        | error e => simp [Cycle.stopped, bind, Except.bind, hi, he]
        | ok evs =>
          cases hs : strip_last evs (cursorOf lib file) with
          | nil => simp [bind, Except.bind, hi, he, hs, post_actions]
          | cons a rest =>
            simp only [bind, Except.bind, hi, he, hs]
            refine ⟨trivial, post_actions_eq_map lib _,
              Or.inr ⟨fetched, items, evs, a, rest, rfl, hi, he, hs, rfl, rfl, rfl, ?_⟩⟩
            cases writeErr <;> rfl

theorem main_notified (lib : JsLib) (file : Option String) (resp : HttpResponse)
    (writeErr : Option JSError) (fetched : JSValue) (items : List JSValue)
    (evs : List NormalizedEvent)
    (hf : fetch_actions lib resp = some (.ok fetched))
    (hi : arrayItems lib fetched = .ok items)
    (he : filter_actions lib items = .ok evs) :
    (main lib file resp writeErr).notified = strip_last evs (cursorOf lib file) := by
  unfold main main_try
  rw [read_last_eq]
  cases hs : strip_last evs (cursorOf lib file) with
  | nil => simp [hf, bind, Except.bind, hi, he, hs]
  | cons a rest => simp [hf, bind, Except.bind, hi, he, hs]

theorem main_notified_newer (lib : JsLib) (file : Option String) (resp : HttpResponse)
    (writeErr : Option JSError) (e : NormalizedEvent)
    (he : e ∈ (main lib file resp writeErr).notified) :
    (∃ t c, e.timestamp = some t ∧ (cursorOf lib file).timeValue = some c ∧ c < t)
    ∧ ∃ fetched items a, fetch_actions lib resp = some (.ok fetched)
        ∧ arrayItems lib fetched = .ok items ∧ a ∈ items
        ∧ isPullRequestEvent a = true ∧ normalize lib a = .ok e := by
  rcases (main_shape lib file resp writeErr).2.2 with h | h
  · rw [h.1] at he
    simp at he
  · obtain ⟨fetched, items, evs, a, rest, hf, hi, hev, hs, hn, _⟩ := h
    rw [hn, ← hs] at he
    have hm := (strip_last_mem evs (cursorOf lib file) e).1 he
    obtain ⟨b, hb, hb2, hb3⟩ := filter_actions_mem lib items evs hev e hm.1
    exact ⟨hm.2, fetched, items, b, hf, hi, hb, hb2, hb3⟩

/-- C5: when the feed is fetched and normalized, the notifications of one run
of `main` are one per event of `strip_last (filter_actions feed) cursor`, in
that order; every notified event comes from a feed item of type
`PullRequestEvent` and is strictly later than the stored cursor; nothing is
posted when no event is strictly later than the cursor. -/
theorem main_notifies (lib : JsLib) (file : Option String) (resp : HttpResponse)
    (writeErr : Option JSError) (fetched : JSValue) (items : List JSValue)
    (evs : List NormalizedEvent)
    (hf : fetch_actions lib resp = some (.ok fetched))
    (hi : arrayItems lib fetched = .ok items)
    (he : filter_actions lib items = .ok evs) :
    (main lib file resp writeErr).notified = strip_last evs (cursorOf lib file)
    ∧ (main lib file resp writeErr).posts
        = (strip_last evs (cursorOf lib file)).map (post_to_channel lib)
    ∧ (∀ e, e ∈ (main lib file resp writeErr).notified →
        (∃ a, a ∈ items ∧ isPullRequestEvent a = true ∧ normalize lib a = .ok e)
        ∧ ∃ t c, e.timestamp = some t ∧ (cursorOf lib file).timeValue = some c ∧ c < t)
    ∧ ((∀ e, e ∈ evs → jsGt e.timestamp (cursorOf lib file).timeValue = false) →
        (main lib file resp writeErr).posts = []) := by
  have hn := main_notified lib file resp writeErr fetched items evs hf hi he
  have hp := (main_shape lib file resp writeErr).2.1
  refine ⟨hn, by rw [hp, hn], ?_, ?_⟩
  · intro e hmem
    rw [hn] at hmem
    have hm := (strip_last_mem evs (cursorOf lib file) e).1 hmem
    exact ⟨filter_actions_mem lib items evs he e hm.1, hm.2⟩
  · intro hall
    rw [hp, hn, strip_last_eq_filter]
    simp only [List.map_eq_nil_iff, List.filter_eq_nil_iff]
    intro e hmem
    simp [hall e hmem]

/-- C3: after one run of `main` the cache file is unchanged, or it holds the
serialization of a cursor whose timestamp is strictly later than that of the
cursor read at the start; it is unchanged whenever no pull-request event of
the feed is strictly later than that cursor. -/
theorem main_cursor_monotone (lib : JsLib) (file : Option String) (resp : HttpResponse)
    (writeErr : Option JSError) :
    ((main lib file resp writeErr).file = file
      ∨ ∃ id t c, (main lib file resp writeErr).saved = some (id, some t)
          ∧ (main lib file resp writeErr).file = some (save_last_data lib id (some t))
          ∧ (cursorOf lib file).timeValue = some c ∧ c < t)
    ∧ (∀ fetched items evs, fetch_actions lib resp = some (.ok fetched) →
        arrayItems lib fetched = .ok items → filter_actions lib items = .ok evs →
        (∀ e, e ∈ evs → jsGt e.timestamp (cursorOf lib file).timeValue = false) →
        (main lib file resp writeErr).file = file
          ∧ (main lib file resp writeErr).saved = none) := by
  constructor
  · rcases (main_shape lib file resp writeErr).2.2 with h | h
    · exact Or.inl h.2.2.1
    · obtain ⟨fetched, items, evs, a, rest, _, _, _, hs, _, hsv, hfile, _⟩ := h
      have hm : a ∈ strip_last evs (cursorOf lib file) := by rw [hs]; simp
      obtain ⟨_, t, c, ht, hc, hlt⟩ := (strip_last_mem evs (cursorOf lib file) a).1 hm
      cases writeErr with
      | some err => exact Or.inl (by rw [hfile]; rfl)
      | none =>
        refine Or.inr ⟨a.id, t, c, by rw [hsv, ht], ?_, hc, hlt⟩
        rw [hfile, ← ht]; rfl
  · intro fetched items evs hf hi he hall
    have hn := main_notified lib file resp writeErr fetched items evs hf hi he
    have hnil : strip_last evs (cursorOf lib file) = [] := by
      rw [strip_last_eq_filter, List.filter_eq_nil_iff]
      intro e hmem
      simp [hall e hmem]
    rcases (main_shape lib file resp writeErr).2.2 with h | h
    · exact ⟨h.2.2.1, h.2.1⟩
    · obtain ⟨_, _, _, a, rest, _, _, _, _, hn2, _⟩ := h
      rw [hn, hnil] at hn2
      exact absurd hn2 (by simp)

/-- C7: when the feed request reports an error or its body is not JSON, one run
of `main` posts nothing, does not call `save_last`, leaves the cache file as
it was and ends without an error and without an unhandled rejection. -/
theorem main_fetch_failure (lib : JsLib) (file : Option String) (resp : HttpResponse)
    (writeErr : Option JSError)
    (h : resp.err ≠ none ∨ lib.jsonParse (resp.body.getD "undefined") = none) :
    (main lib file resp writeErr).notified = []
    ∧ (main lib file resp writeErr).posts = []
    ∧ (main lib file resp writeErr).saved = none
    ∧ (main lib file resp writeErr).file = file
    ∧ (main lib file resp writeErr).outcome = some (.ok ())
    ∧ (main lib file resp writeErr).unhandled = [] := by
  obtain ⟨e, he⟩ := fetch_actions_failure lib resp h
  have hs := main_shape lib file resp writeErr
  rcases hs.2.2 with h1 | h1
  · exact ⟨h1.1, by rw [hs.2.1, h1.1]; rfl, h1.2.1, h1.2.2.1, hs.1, h1.2.2.2⟩
  · obtain ⟨fetched, _, _, _, _, hf, _⟩ := h1
    rw [he] at hf
    simp at hf

/-- C4, as amended: when a run of `main` notifies a non-empty batch, the cursor
it saves carries the id and timestamp of the first event of the batch; its
timestamp is at least that of every notified event when the batch is ordered
from newest to oldest, as the feed delivers it. -/
theorem main_saves_first (lib : JsLib) (file : Option String) (resp : HttpResponse)
    (writeErr : Option JSError) (a : NormalizedEvent) (rest : List NormalizedEvent)
    (h : (main lib file resp writeErr).notified = a :: rest) :
    (main lib file resp writeErr).saved = some (a.id, a.timestamp)
    ∧ (writeErr = none →
        (main lib file resp writeErr).file = some (save_last_data lib a.id a.timestamp))
    ∧ (List.Pairwise (fun x y => jsGt y.timestamp x.timestamp = false) (a :: rest) →
        ∀ e, e ∈ a :: rest →
          ∃ t ta, e.timestamp = some t ∧ a.timestamp = some ta ∧ t ≤ ta) := by
  rcases (main_shape lib file resp writeErr).2.2 with h1 | h1
  · rw [h1.1] at h
    simp at h
  · obtain ⟨_, _, _, a2, rest2, _, _, _, _, hn, hsv, hfile, _⟩ := h1
    rw [hn] at h
    injection h with ha hr
    subst ha
    subst hr
    refine ⟨hsv, ?_, ?_⟩
    · intro hw
      subst hw
      rw [hfile]; rfl
    · intro hsorted e hmem
      have hnew : ∀ x, x ∈ a2 :: rest2 → ∃ t, x.timestamp = some t := by
        intro x hx
        rw [← hn] at hx
        obtain ⟨⟨t, _, ht, _⟩, _⟩ := main_notified_newer lib file resp writeErr x hx
        exact ⟨t, ht⟩
      obtain ⟨t, ht⟩ := hnew e hmem
      obtain ⟨ta, hta⟩ := hnew a2 (List.mem_cons_self a2 rest2)
      refine ⟨t, ta, ht, hta, ?_⟩
      rcases List.mem_cons.1 hmem with he | he
      · subst he
        rw [ht] at hta
        injection hta with h3
        omega
      · have hle := (List.pairwise_cons.1 hsorted).1 e he
        rw [ht, hta] at hle
        simpa [jsGt] using hle

set_option maxRecDepth 1000000 in
/-- The amended C4 on Scenario 1: from the zero cursor and the one-event feed
the run saves id 5 with the timestamp of 2020-01-02T00:00:00Z. -/
theorem main_saves_first_witness :
    (main refLib none scenarioResponse none).notified = [scenarioEvent]
    ∧ (main refLib none scenarioResponse none).saved = some (.num 5, some 1577923200000)
    ∧ (main refLib none scenarioResponse none).file
        = some "\x7b\"id\":5,\"timestamp\":\"2020-01-02T00:00:00.000Z\"\x7d" :=
  ⟨by rfl,
    (main_saves_first refLib none scenarioResponse none scenarioEvent [] (by rfl)).1,
    (main_saves_first refLib none scenarioResponse none scenarioEvent [] (by rfl)).2.1 rfl⟩

set_option maxRecDepth 1000000 in
/-- C4 fails as stated: on a feed whose first pull-request event (2020-01-02)
is older than its second one (2020-01-03) both are notified and the cursor
saved is the first, older one. -/
theorem main_saves_older_event :
    (main refLib none ⟨none, some unorderedFeed⟩ none).notified.map (fun e => e.timestamp)
        = [some 1577923200000, some 1578009600000]
    ∧ (main refLib none ⟨none, some unorderedFeed⟩ none).saved.map Prod.snd
        = some (some 1577923200000)
    ∧ (main refLib none ⟨none, some unorderedFeed⟩ none).file
        = some "\x7b\"id\":5,\"timestamp\":\"2020-01-02T00:00:00.000Z\"\x7d"
    ∧ ¬ ((1578009600000 : Int) ≤ 1577923200000) := by
  decide

set_option maxRecDepth 1000000 in
/-- C8 on a run that has a new event to record while the cache file cannot be
written: the promise of `save_last` is rejected and nothing handles it, so the
error escapes the `try` block of `main`. -/
theorem main_unhandled_rejection :
    (main refLib none scenarioResponse (some .ioError)).unhandled = [.ioError]
    ∧ (main refLib none scenarioResponse (some .ioError)).posts = ["a opened \"Fix\" - <u>"]
    ∧ (main refLib none scenarioResponse (some .ioError)).file = none := by
  decide

/-- C9: `read_last` always resolves, never rejects; it resolves to the zero
cursor `{id: 0, timestamp: new Date(null)}`, whose time value is 0, when the
cache file cannot be read and when its text is not JSON; from the zero cursor
`strip_last` keeps exactly the events dated after the epoch. -/
theorem read_last_spec (lib : JsLib) (file : Option String) :
    read_last lib file = some (.ok (cursorOf lib file))
    ∧ (file = none → read_last lib file = some (.ok zeroCursor))
    ∧ (∀ data, file = some data → lib.jsonParse data = none →
        read_last lib file = some (.ok zeroCursor))
    ∧ zeroCursor = ⟨.num 0, some (newDate lib .null)⟩
    ∧ zeroCursor.timeValue = some 0
    ∧ (∀ B e, e ∈ strip_last B zeroCursor ↔ e ∈ B ∧ ∃ t, e.timestamp = some t ∧ 0 < t) := by
  refine ⟨read_last_eq lib file, ?_, ?_, rfl, rfl, ?_⟩
  · intro h
    subst h
    rfl
  · intro data h hp
    subst h
    simp [read_last, read_last_calls, firstSettled, read_last_try, hp]
  · intro B e
    rw [strip_last_mem]
    constructor
    · rintro ⟨hb, t, c, ht, hc, hlt⟩
      have hc0 : c = 0 := by
        have : zeroCursor.timeValue = some 0 := rfl
        rw [this] at hc
        injection hc with h0
        exact h0.symm
      exact ⟨hb, t, ht, by omega⟩
    · rintro ⟨hb, t, ht, hlt⟩
      exact ⟨hb, t, 0, ht, rfl, hlt⟩

set_option maxRecDepth 1000000 in
/-- C9 on a cache file that is cut short: not JSON, hence the zero cursor. -/
theorem read_last_spec_witness :
    refLib.jsonParse "\x7b\"id\":5,\"timest" = none
    ∧ read_last refLib (some "\x7b\"id\":5,\"timest") = some (.ok zeroCursor) :=
  ⟨by rfl,
    (read_last_spec refLib (some "\x7b\"id\":5,\"timest")).2.2.1 _ rfl (by rfl)⟩

/-! ## Properties of the reference library -/

theorem digit_facts (r : Nat) (h : r < 10) :
    (Char.ofNat (48 + r)).isDigit = true ∧ (Char.ofNat (48 + r)).toNat - 48 = r
    ∧ Char.ofNat (48 + r) ≠ dquote ∧ Char.ofNat (48 + r) ≠ backslash
    ∧ ¬ (Char.ofNat (48 + r)).toNat < 32
    ∧ Char.ofNat (48 + r) ≠ '+' ∧ Char.ofNat (48 + r) ≠ '-' := by
  interval_cases r <;> decide

theorem digitChar_isDigit (k : Nat) : (digitChar k).isDigit = true :=
  (digit_facts (k % 10) (Nat.mod_lt k (by decide))).1

theorem digitChar_value (k : Nat) : (digitChar k).toNat - 48 = k % 10 :=
  (digit_facts (k % 10) (Nat.mod_lt k (by decide))).2.1

theorem digitsValue_append (xs ys : List Char) :
    ∀ acc, digitsValue (xs ++ ys) acc = (digitsValue xs acc).bind (digitsValue ys) := by
  induction xs with
  | nil => intro acc; rfl
  | cons c rest ih =>
    intro acc
    simp only [List.cons_append, digitsValue]
    split
    · exact ih _
    · rfl

theorem digitsValue_fixed (w : Nat) :
    ∀ n acc, digitsValue (fixedDigits w n) acc = some (acc * 10 ^ w + n % 10 ^ w) := by
  induction w with
  | zero => intro n acc; simp [fixedDigits, digitsValue, Nat.mod_one]
  | succ w ih =>
    intro n acc
    rw [fixedDigits, digitsValue_append, ih]
    simp only [Option.bind, digitsValue, digitChar_isDigit, digitChar_value, if_true]
    congr 1
    have h1 : n % 10 ^ (w + 1) = n / 10 % 10 ^ w * 10 + n % 10 := by
      rw [pow_succ, Nat.mul_comm (10 ^ w) 10, Nat.mod_mul]
      ring
    rw [h1, pow_succ]
    ring

theorem length_fixedDigits (w : Nat) : ∀ n, (fixedDigits w n).length = w := by
  induction w with
  | zero => intro n; rfl
  | succ w ih => intro n; simp [fixedDigits, ih]

theorem takeDigits_fixed (w n : Nat) (rest : List Char) (h : n < 10 ^ w) :
    takeDigits w (fixedDigits w n ++ rest) = some (n, rest) := by
  have hl := length_fixedDigits w n
  simp [takeDigits, List.take_append_of_le_length, List.take_of_length_le, hl,
    List.drop_append_of_le_length, List.drop_of_length_le, digitsValue_fixed,
    Nat.mod_eq_of_lt h]
theorem yoe_bounds (doe : Int) (h0 : 0 ≤ doe) (h1 : doe ≤ 146096) :
    0 ≤ (doe - doe / 1460 + doe / 36524 - doe / 146096) / 365
    ∧ (doe - doe / 1460 + doe / 36524 - doe / 146096) / 365 ≤ 399
    ∧ 0 ≤ doe - (365 * ((doe - doe / 1460 + doe / 36524 - doe / 146096) / 365)
        + (doe - doe / 1460 + doe / 36524 - doe / 146096) / 365 / 4
        - (doe - doe / 1460 + doe / 36524 - doe / 146096) / 365 / 100)
    ∧ doe - (365 * ((doe - doe / 1460 + doe / 36524 - doe / 146096) / 365)
        + (doe - doe / 1460 + doe / 36524 - doe / 146096) / 365 / 4
        - (doe - doe / 1460 + doe / 36524 - doe / 146096) / 365 / 100) ≤ 365 := by
  generalize ha : doe / 36524 = a
  generalize hb : doe / 146096 = b
  generalize hc : doe / 1460 = c
  generalize hy : (doe - c + a - b) / 365 = y
  generalize hg : y / 4 = g
  generalize hi : y / 100 = i
  have ha' : a = 0 ∨ a = 1 ∨ a = 2 ∨ a = 3 ∨ a = 4 := by omega
  have hy0 : 0 ≤ y := by omega
  have hy1 : y ≤ 399 := by omega
  have hi' : i = 0 ∨ i = 1 ∨ i = 2 ∨ i = 3 := by omega
  have hL0 : 0 ≤ (c - a + b) - (g - i) := by
    rcases ha' with h | h | h | h | h <;> rcases hi' with h' | h' | h' | h' <;> omega
  have hL1 : (c - a + b) - (g - i) ≤ 1 := by
    rcases ha' with h | h | h | h | h <;> rcases hi' with h' | h' | h' | h' <;> omega
  refine ⟨hy0, hy1, by omega, by omega⟩

theorem civil_roundtrip (z : Int) :
    daysFromCivil (civilFromDays z).1 (civilFromDays z).2.1 (civilFromDays z).2.2 = z
    ∧ 1 ≤ (civilFromDays z).2.1 ∧ (civilFromDays z).2.1 ≤ 12
    ∧ 1 ≤ (civilFromDays z).2.2 ∧ (civilFromDays z).2.2 ≤ 31
    ∧ (z + 719468) / 146097 * 400 ≤ (civilFromDays z).1
    ∧ (civilFromDays z).1 ≤ (z + 719468) / 146097 * 400 + 400 := by
  have hb := yoe_bounds (z + 719468 - (z + 719468) / 146097 * 146097) (by omega) (by omega)
  simp only [civilFromDays, daysFromCivil]
  generalize hera : (z + 719468) / 146097 = era at hb ⊢
  generalize hdoe : z + 719468 - era * 146097 = doe at hb ⊢
  generalize hyoe : (doe - doe / 1460 + doe / 36524 - doe / 146096) / 365 = yoe at hb ⊢
  generalize hdoy : doe - (365 * yoe + yoe / 4 - yoe / 100) = doy at hb ⊢
  generalize hmp : (5 * doy + 2) / 153 = mp
  obtain ⟨h1, h2, h3, h4⟩ := hb
  have hmp0 : 0 ≤ mp := by omega
  have hmp1 : mp ≤ 11 := by omega
  have hd0 : 1 ≤ doy - (153 * mp + 2) / 5 + 1 := by omega
  have hd1 : doy - (153 * mp + 2) / 5 + 1 ≤ 31 := by omega
  have hk : (yoe + era * 400) / 400 = era := by omega
  have hl : (yoe + era * 400 - (yoe + era * 400) / 400 * 400) / 4 = yoe / 4 := by
    rw [hk]; congr 1; omega
  have hm : (yoe + era * 400 - (yoe + era * 400) / 400 * 400) / 100 = yoe / 100 := by
    rw [hk]; congr 1; omega
  have hn1 : (153 * (((mp + 3).toNat : Int) - 3) + 2) / 5 = (153 * mp + 2) / 5 := by
    congr 2; omega
  have hn2 : 10 ≤ mp → (153 * (((mp - 9).toNat : Int) + 9) + 2) / 5 = (153 * mp + 2) / 5 := by
    intro h9
    congr 2; omega
  by_cases hlt : mp < 10
  · simp only [hlt, if_true]
    refine ⟨?_, by omega, by omega, by omega, by omega, ?_, ?_⟩
    · split_ifs <;> (try simp only [add_sub_cancel_right]) <;> omega
    · split_ifs <;> omega
    · split_ifs <;> omega
  · have hn3 := hn2 (by omega)
    simp only [hlt, if_false]
    refine ⟨?_, by omega, by omega, by omega, by omega, ?_, ?_⟩
    · split_ifs <;> (try simp only [add_sub_cancel_right]) <;> omega
    · split_ifs <;> omega
    · split_ifs <;> omega

theorem fixedDigits_head (w : Nat) :
    ∀ n, fixedDigits (w + 1) n = digitChar (n / 10 ^ w) :: fixedDigits w n := by
  induction w with
  | zero => intro n; simp [fixedDigits]
  | succ w ih =>
    intro n
    rw [fixedDigits, ih (n / 10)]
    simp [fixedDigits, Nat.div_div_eq_div_mul, pow_succ, Nat.mul_comm]

theorem expectChar_cons (c : Char) (s : List Char) : expectChar c (c :: s) = some s := by
  simp [expectChar]

theorem isoYear_plain (n : Nat) (rest : List Char) (h : n < 10 ^ 4) :
    isoYear (fixedDigits 4 n ++ rest) = some ((n : Int), rest) := by
  have hd := digit_facts (n / 10 ^ 3 % 10) (Nat.mod_lt _ (by decide))
  have h1 : digitChar (n / 10 ^ 3) ≠ '+' := hd.2.2.2.2.2.1
  have h2 : digitChar (n / 10 ^ 3) ≠ '-' := hd.2.2.2.2.2.2
  have e : fixedDigits 4 n ++ rest = digitChar (n / 10 ^ 3) :: (fixedDigits 3 n ++ rest) := by
    rw [fixedDigits_head 3 n]; rfl
  have t := takeDigits_fixed 4 n rest h
  rw [e] at t ⊢
  simp only [isoYear, if_neg h1, if_neg h2, t]

theorem isoYear_signed (y : Int) (rest : List Char) (h : y.natAbs < 10 ^ 6)
    (hy : ¬ (0 ≤ y ∧ y ≤ 9999)) :
    isoYear ((if y < 0 then '-' else '+') :: fixedDigits 6 y.natAbs ++ rest)
      = some (y, rest) := by
  by_cases hneg : y < 0
  · have h0 : y.natAbs ≠ 0 := by omega
    have h1 : -((y.natAbs : Nat) : Int) = y := by
      rw [Int.ofNat_natAbs_of_nonpos (le_of_lt hneg)]; omega
    simp only [hneg, if_true, List.cons_append, isoYear, takeDigits_fixed 6 _ rest h]
    simp [h0, abs_of_neg hneg]
  · have h1 : ((y.natAbs : Nat) : Int) = y := Int.natAbs_of_nonneg (by omega)
    simp only [hneg, if_false, List.cons_append, isoYear, takeDigits_fixed 6 _ rest h]
    simp [abs_of_nonneg (show (0 : Int) ≤ y by omega)]

theorem isoTimeOfDay_full (h mi sec ms : Nat) (hh : h < 100) (hmi : mi < 100)
    (hsec : sec < 100) (hms : ms < 1000) :
    isoTimeOfDay ('T' :: (fixedDigits 2 h ++ ':' :: (fixedDigits 2 mi ++ ':'
      :: (fixedDigits 2 sec ++ '.' :: (fixedDigits 3 ms ++ ['Z'])))))
      = some (h, mi, sec, ms) := by
  simp [isoTimeOfDay, expectChar_cons, takeDigits_fixed, hh, hmi, hsec, hms, isoMillis,
    bind, Option.bind]

theorem isoDateParse_fields (y : Int) (m d h mi sec ms : Nat) (hy : y.natAbs < 10 ^ 6)
    (hm : m < 100) (hd : d < 100) (hh : h < 100) (hmi : mi < 100)
    (hsec : sec < 100) (hms : ms < 1000) :
    isoDateParse
      ((if 0 ≤ y ∧ y ≤ 9999 then fixedDigits 4 y.toNat
        else (if y < 0 then '-' else '+') :: fixedDigits 6 y.natAbs)
        ++ '-' :: (fixedDigits 2 m ++ '-' :: (fixedDigits 2 d ++ 'T'
        :: (fixedDigits 2 h ++ ':' :: (fixedDigits 2 mi ++ ':'
        :: (fixedDigits 2 sec ++ '.' :: (fixedDigits 3 ms ++ ['Z'])))))))
      = makeTime y m d h mi sec ms := by
  have hyear : ∀ rest, isoYear ((if 0 ≤ y ∧ y ≤ 9999 then fixedDigits 4 y.toNat
        else (if y < 0 then '-' else '+') :: fixedDigits 6 y.natAbs) ++ rest)
      = some (y, rest) := by
    intro rest
    by_cases hc : 0 ≤ y ∧ y ≤ 9999
    · rw [if_pos hc, isoYear_plain _ _ (by omega)]
      congr 2
      omega
    · rw [if_neg hc]
      exact isoYear_signed y rest hy hc
  simp [isoDateParse, hyear, expectChar_cons, takeDigits_fixed, hm, hd,
    isoTimeOfDay_full h mi sec ms hh hmi hsec hms, bind, Option.bind]

theorem isoDateParse_toISOString (t : Int) (ht : t.natAbs ≤ MAX_TIME.natAbs) :
    isoDateParse (toISOString t) = some t := by
  have hc := civil_roundtrip (t / 86400000)
  obtain ⟨h1, h2, h3, h4, h5, h6, h7⟩ := hc
  have hms0 : 0 ≤ t % 86400000 := Int.emod_nonneg _ (by decide)
  have hms1 : t % 86400000 < 86400000 := Int.emod_lt_of_pos _ (by decide)
  have hT : (MAX_TIME.natAbs : Int) = 8640000000000000 := by decide
  have hr : -8640000000000000 ≤ t ∧ t ≤ 8640000000000000 := by omega
  unfold toISOString
  simp only []
  rw [isoDateParse_fields _ _ _ _ _ _ _ (by omega) (by omega) (by omega) (by omega)
    (by omega) (by omega) (by omega)]
  unfold makeTime
  rw [if_pos (by omega), h1]
  have hsum : t / 86400000 * 86400000
      + (((t % 86400000).toNat / 3600000 * 3600000 + (t % 86400000).toNat / 60000 % 60 * 60000
          + (t % 86400000).toNat / 1000 % 60 * 1000 + (t % 86400000).toNat % 1000 : Nat) : Int)
      = t := by omega
  rw [hsum]
  simp [timeClip, ht]


theorem natDigitsRev_fuel : ∀ n f g, n < f → n < g → natDigitsRev f n = natDigitsRev g n := by
  intro n
  induction n using Nat.strong_induction_on with
  | _ n ih =>
    intro f g hf hg
    cases f with
    | zero => omega
    | succ f =>
      cases g with
      | zero => omega
      | succ g =>
        simp only [natDigitsRev]
        split
        · rfl
        · rw [ih (n / 10) (by omega) f g (by omega) (by omega)]

theorem natDigits_small (n : Nat) (h : n < 10) : natDigits n = [digitChar n] := by
  simp [natDigits, natDigitsRev, h]

theorem natDigits_step (n : Nat) (h : 10 ≤ n) :
    natDigits n = natDigits (n / 10) ++ [digitChar n] := by
  have h1 : ¬ n < 10 := by omega
  show (natDigitsRev (n + 1) n).reverse = (natDigitsRev (n / 10 + 1) (n / 10)).reverse ++ _
  rw [natDigitsRev, if_neg h1, List.reverse_cons,
    natDigitsRev_fuel (n / 10) n (n / 10 + 1) (by omega) (by omega)]

theorem digitsValue_natDigits (n : Nat) : digitsValue (natDigits n) 0 = some n := by
  induction n using Nat.strong_induction_on with
  | _ n ih =>
    by_cases h : n < 10
    · rw [natDigits_small n h]
      simp [digitsValue, digitChar_isDigit, digitChar_value, Nat.mod_eq_of_lt h]
    · rw [natDigits_step n (by omega), digitsValue_append, ih (n / 10) (by omega)]
      simp only [Option.bind, digitsValue, digitChar_isDigit, digitChar_value, if_true]
      congr 1
      omega

theorem natDigits_all_digits (n : Nat) : ∀ c, c ∈ natDigits n → c.isDigit = true := by
  induction n using Nat.strong_induction_on with
  | _ n ih =>
    intro c hc
    by_cases h : n < 10
    · rw [natDigits_small n h] at hc
      simp at hc
      rw [hc]; exact digitChar_isDigit n
    · rw [natDigits_step n (by omega)] at hc
      rcases List.mem_append.1 hc with h1 | h1
      · exact ih (n / 10) (by omega) c h1
      · simp at h1
        rw [h1]; exact digitChar_isDigit n

theorem natDigits_head (n : Nat) :
    ∃ c tail, natDigits n = c :: tail ∧ c.isDigit = true
      ∧ (c = '0' → tail = []) := by
  induction n using Nat.strong_induction_on with
  | _ n ih =>
    by_cases h : n < 10
    · exact ⟨digitChar n, [], natDigits_small n h, digitChar_isDigit n, fun _ => rfl⟩
    · obtain ⟨c, tail, h1, h2, h3⟩ := ih (n / 10) (by omega)
      refine ⟨c, tail ++ [digitChar n], by rw [natDigits_step n (by omega), h1]; rfl, h2, ?_⟩
      intro hc
      exfalso
      have ht := h3 hc
      subst ht
      have hv := digitsValue_natDigits (n / 10)
      rw [h1, hc] at hv
      have h0 : digitsValue ['0'] 0 = some 0 := by decide
      rw [h0] at hv
      injection hv with hv
      omega

theorem spanDigits_append (xs : List Char) (c : Char) (rest : List Char)
    (hx : ∀ d, d ∈ xs → d.isDigit = true) (hc : c.isDigit = false) :
    spanDigits (xs ++ c :: rest) = (xs, c :: rest) := by
  induction xs with
  | nil => simp [spanDigits, hc]
  | cons d tail ih =>
    have hd := hx d (List.mem_cons_self d tail)
    have ih2 := ih (fun e he => hx e (List.mem_cons_of_mem d he))
    simp [spanDigits, hd, ih2]

theorem parseInteger_natDigits (k : Nat) (rest : List Char) (hk : k ≤ EXACT_INTEGER_LIMIT) :
    parseInteger (natDigits k ++ ',' :: rest) = some ((k : Int), ',' :: rest) := by
  obtain ⟨c, tail, hcs, hdig, hzero⟩ := natDigits_head k
  have hspan := spanDigits_append (natDigits k) ',' rest (natDigits_all_digits k) (by decide)
  have hval := digitsValue_natDigits k
  have hneg : c ≠ '-' := by
    intro h
    rw [h] at hdig
    exact absurd hdig (by decide)
  have hlead : ¬ (c = '0' ∧ tail.length + 1 ≠ 1) := by
    rintro ⟨h1, h2⟩
    rw [hzero h1] at h2
    exact h2 rfl
  unfold parseInteger
  rw [hcs] at hspan hval
  simp only [hcs, List.cons_append, List.head?_cons, Option.some.injEq, hneg, decide_False,
    Bool.false_eq_true, if_false]
  rw [show c :: (tail ++ ',' :: rest) = (c :: tail) ++ ',' :: rest from rfl, hspan]
  simp [hval, hk]
  exact hzero

theorem parseInteger_negDigits (k : Nat) (rest : List Char) (hk : k ≤ EXACT_INTEGER_LIMIT) :
    parseInteger ('-' :: (natDigits k ++ ',' :: rest)) = some (- (k : Int), ',' :: rest) := by
  obtain ⟨c, tail, hcs, hdig, hzero⟩ := natDigits_head k
  have hspan := spanDigits_append (natDigits k) ',' rest (natDigits_all_digits k) (by decide)
  have hval := digitsValue_natDigits k
  have hlead : ¬ (c = '0' ∧ tail.length + 1 ≠ 1) := by
    rintro ⟨h1, h2⟩
    rw [hzero h1] at h2
    exact h2 rfl
  unfold parseInteger
  simp only [List.head?_cons, decide_True, if_true, List.drop_succ_cons, List.drop_zero, hspan]
  rw [hcs] at hval ⊢
  simp [hval, hk]
  exact hzero

theorem parseInteger_intDigits (n : Int) (rest : List Char)
    (hn : n.natAbs ≤ EXACT_INTEGER_LIMIT) :
    parseInteger (intDigits n ++ ',' :: rest) = some (n, ',' :: rest) := by
  unfold intDigits
  by_cases h : n < 0
  · rw [if_pos h, List.cons_append, parseInteger_negDigits _ _ hn]
    congr 2
    omega
  · rw [if_neg h, parseInteger_natDigits _ _ hn]
    congr 2
    omega

theorem numberStart_ne (c d : Char) (hc : c.isDigit = true ∨ c = '-')
    (hd : d.isDigit = false ∧ d ≠ '-') : c ≠ d := by
  intro e
  subst e
  rcases hc with h | h
  · rw [h] at hd; exact absurd hd.1 (by decide)
  · exact hd.2 h

theorem skipWs_cons (c : Char) (r : List Char)
    (h : ¬ (c = ' ' ∨ c = Char.ofNat 10 ∨ c = Char.ofNat 13 ∨ c = Char.ofNat 9)) :
    skipWs (c :: r) = c :: r := by
  simp only [skipWs, if_neg h]

theorem parseValue_number (f : Nat) (c : Char) (r : List Char)
    (hc : c.isDigit = true ∨ c = '-') :
    parseValue (f + 1) (c :: r)
      = match parseInteger (c :: r) with
        | some (n, rest2) => some (.num n, rest2)
        | none => none := by
  have h1 := numberStart_ne c ' ' hc (by decide)
  have h2 := numberStart_ne c (Char.ofNat 10) hc (by decide)
  have h3 := numberStart_ne c (Char.ofNat 13) hc (by decide)
  have h4 := numberStart_ne c (Char.ofNat 9) hc (by decide)
  have h5 := numberStart_ne c 'n' hc (by decide)
  have h6 := numberStart_ne c 't' hc (by decide)
  have h7 := numberStart_ne c 'f' hc (by decide)
  have h8 := numberStart_ne c '[' hc (by decide)
  have h9 := numberStart_ne c '{' hc (by decide)
  have h10 := numberStart_ne c dquote hc (by decide)
  have hs : skipWs (c :: r) = c :: r := skipWs_cons c r (by simp [h1, h2, h3, h4])
  unfold parseValue
  rw [hs]
  split
  · rename_i heq; simp at heq
  · rename_i heq; simp at heq; exact absurd heq.1 h5
  · rename_i heq; simp at heq; exact absurd heq.1 h6
  · rename_i heq; simp at heq; exact absurd heq.1 h7
  · rename_i heq; simp at heq; exact absurd heq.1 h8
  · rename_i heq; simp at heq; exact absurd heq.1 h9
  · rename_i c2 rest2 _ _ _ _ _ heq
    simp at heq
    obtain ⟨e1, e2⟩ := heq
    rw [← e1, ← e2, if_neg h10]

theorem plainChar_spec (c : Char) (h : plainChar c = true) :
    quoteChar c = [c] ∧ c ≠ dquote ∧ c ≠ backslash ∧ ¬ c.toNat < 32 := by
  simp only [plainChar, Bool.and_eq_true, decide_eq_true_eq, Bool.not_eq_true',
    beq_eq_false_iff_ne, decide_eq_false_iff_not] at h
  exact ⟨h.1.1.1, h.1.1.2, h.1.2, h.2⟩

theorem plainChar_digit (k : Nat) : plainChar (digitChar k) = true := by
  have h : ∀ r : Fin 10, plainChar (Char.ofNat (48 + r.val)) = true := by decide
  exact h ⟨k % 10, Nat.mod_lt k (by decide)⟩

theorem parseStringBody_plain (x : List Char) :
    ∀ (acc rest : List Char), (∀ c, c ∈ x → plainChar c = true) →
      parseStringBody acc 0 (x ++ dquote :: rest)
        = some (String.mk (acc.reverse ++ x), rest) := by
  induction x with
  | nil =>
    intro acc rest _
    rw [List.nil_append, List.append_nil, parseStringBody, if_pos rfl]
  | cons c tail ih =>
    intro acc rest h
    obtain ⟨_, h1, h2, h3⟩ := plainChar_spec c (h c (List.mem_cons_self c tail))
    have ih2 := ih (c :: acc) rest (fun d hd => h d (List.mem_cons_of_mem c hd))
    simp only [List.cons_append]
    rw [parseStringBody, if_neg h1, if_neg h2, if_neg h3, ih2]
    simp only [List.reverse_cons, List.append_assoc, List.singleton_append]

theorem quoteJSON_plain (x : List Char) (h : ∀ c, c ∈ x → plainChar c = true) :
    quoteJSON x = dquote :: (x ++ [dquote]) := by
  have hf : (x.map quoteChar).flatten = x := by
    induction x with
    | nil => rfl
    | cons c tail ih =>
      have h1 := (plainChar_spec c (h c (List.mem_cons_self c tail))).1
      simp [h1, ih (fun d hd => h d (List.mem_cons_of_mem c hd))]
  simp [quoteJSON, hf]

theorem mem_fixedDigits (w : Nat) : ∀ n c, c ∈ fixedDigits w n → ∃ k, c = digitChar k := by
  induction w with
  | zero => intro n c h; simp [fixedDigits] at h
  | succ w ih =>
    intro n c h
    simp only [fixedDigits, List.mem_append, List.mem_singleton] at h
    rcases h with h | h
    · exact ih _ c h
    · exact ⟨n, h⟩

theorem plain_fixedDigits (w n : Nat) (c : Char) (h : c ∈ fixedDigits w n) :
    plainChar c = true := by
  obtain ⟨k, hk⟩ := mem_fixedDigits w n c h
  rw [hk]; exact plainChar_digit k

theorem toISOString_plain (t : Int) : ∀ c, c ∈ toISOString t → plainChar c = true := by
  intro c hc
  unfold toISOString at hc
  simp only [List.mem_append, List.mem_cons, List.mem_singleton, List.not_mem_nil,
    or_false] at hc
  have hp := plain_fixedDigits
  rcases hc with h | h | h | h | h | h | h | h | h | h | h | h | h | h
  · split at h
    · exact hp _ _ c h
    · rcases List.mem_cons.1 h with h1 | h1
      · rw [h1]; split <;> decide
      · exact hp _ _ c h1
  all_goals first | exact hp _ _ c h | (rw [h]; decide)

theorem skipWs_of_plain (c : Char) (r : List Char) (h : plainChar c = true) (h2 : c ≠ ' ') :
    skipWs (c :: r) = c :: r := by
  have h3 := (plainChar_spec c h).2.2.2
  apply skipWs_cons
  rintro (e | e | e | e)
  · exact h2 e
  · rw [e] at h3; exact h3 (by decide)
  · rw [e] at h3; exact h3 (by decide)
  · rw [e] at h3; exact h3 (by decide)

theorem skipWs_dquote (r : List Char) : skipWs (dquote :: r) = dquote :: r :=
  skipWs_cons dquote r (by decide)

theorem parseValue_string (f : Nat) (x rest : List Char)
    (hx : ∀ c, c ∈ x → plainChar c = true) :
    parseValue (f + 1) (dquote :: (x ++ dquote :: rest)) = some (.str (String.mk x), rest) := by
  unfold parseValue
  rw [skipWs_dquote]
  split
  · rename_i heq; simp at heq
  · rename_i heq; simp at heq; exact absurd heq.1 (by decide)
  · rename_i heq; simp at heq; exact absurd heq.1 (by decide)
  · rename_i heq; simp at heq; exact absurd heq.1 (by decide)
  · rename_i heq; simp at heq; exact absurd heq.1 (by decide)
  · rename_i heq; simp at heq; exact absurd heq.1 (by decide)
  · rename_i heq
    simp at heq
    obtain ⟨e1, e2⟩ := heq
    rw [← e1, ← e2, if_pos rfl, parseStringBody_plain x [] rest hx]
    rfl

theorem parseValue_object (f : Nat) (r : List Char) :
    parseValue (f + 1) ('{' :: dquote :: r) = parseMembers f (dquote :: r) [] := by
  unfold parseValue
  rw [skipWs_cons '{' _ (by decide)]
  split
  · rename_i heq; simp at heq
  · rename_i heq; simp at heq
  · rename_i heq; simp at heq
  · rename_i heq; simp at heq
  · rename_i heq; simp at heq
  · rename_i heq
    simp at heq
    rw [← heq, skipWs_dquote]
    split
    · rename_i heq2; simp at heq2; exact absurd heq2.1 (by decide)
    · rfl
  · rename_i h heq
    simp at heq
    exact (h heq.1.symm).elim

theorem parseValue_integer (f : Nat) (n : Int) (rest : List Char)
    (hn : n.natAbs ≤ EXACT_INTEGER_LIMIT) :
    parseValue (f + 1) (intDigits n ++ ',' :: rest) = some (.num n, ',' :: rest) := by
  have hp := parseInteger_intDigits n rest hn
  have hhead : ∃ c tail, intDigits n = c :: tail ∧ (c.isDigit = true ∨ c = '-') := by
    unfold intDigits
    split
    · exact ⟨'-', _, rfl, Or.inr rfl⟩
    · obtain ⟨c, tail, h1, h2, _⟩ := natDigits_head n.natAbs
      exact ⟨c, tail, h1, Or.inl h2⟩
  obtain ⟨c, tail, h1, h2⟩ := hhead
  rw [h1] at hp ⊢
  rw [List.cons_append] at hp ⊢
  rw [parseValue_number f c _ h2, hp]

theorem skipWs_nil : skipWs [] = [] := rfl

theorem parseMembers_more (f : Nat) (key vtext rest : List Char) (v : JSValue)
    (acc : List (String × JSValue)) (hk : ∀ c, c ∈ key → plainChar c = true)
    (hv : parseValue f vtext = some (v, ',' :: rest)) :
    parseMembers (f + 1) (dquote :: (key ++ dquote :: ':' :: vtext)) acc
      = parseMembers f rest (setField (String.mk key) v acc) := by
  rw [parseMembers, skipWs_dquote]
  simp only [if_true, parseStringBody_plain key [] _ hk, List.reverse_nil, List.nil_append,
    skipWs_cons ':' vtext (by decide), hv, skipWs_cons ',' rest (by decide)]

theorem parseMembers_last (f : Nat) (key vtext rest : List Char) (v : JSValue)
    (acc : List (String × JSValue)) (hk : ∀ c, c ∈ key → plainChar c = true)
    (hv : parseValue f vtext = some (v, '}' :: rest)) :
    parseMembers (f + 1) (dquote :: (key ++ dquote :: ':' :: vtext)) acc
      = some (.obj (setField (String.mk key) v acc), rest) := by
  rw [parseMembers, skipWs_dquote]
  simp only [if_true, parseStringBody_plain key [] _ hk, List.reverse_nil, List.nil_append,
    skipWs_cons ':' vtext (by decide), hv, skipWs_cons '}' rest (by decide)]

/-! ## The round trip of the cursor store -/

theorem stringify_cursor (n t : Int) :
    refJsonStringify (.obj [("id", .num n), ("timestamp", .date (some t))])
      = String.mk (cursorText n t) := by
  have h1 : quoteJSON "id".toList = dquote :: ("id".toList ++ [dquote]) := by decide
  have h2 : quoteJSON "timestamp".toList = dquote :: ("timestamp".toList ++ [dquote]) := by
    decide
  simp only [refJsonStringify, stringifyValue, stringifyFields, commaJoin, Option.getD,
    h1, h2, quoteJSON_plain (toISOString t) (toISOString_plain t), cursorText]
  simp

theorem parse_cursor (n t : Int) (hn : n.natAbs ≤ EXACT_INTEGER_LIMIT) :
    refJsonParse (String.mk (cursorText n t))
      = some (.obj [("id", .num n), ("timestamp", .str (String.mk (toISOString t)))]) := by
  have hfuel : ∃ m, 2 * (String.mk (cursorText n t)).length + 2 = m + 4 :=
    ⟨2 * (String.mk (cursorText n t)).length - 2, by
      have : 1 ≤ (String.mk (cursorText n t)).length := by simp [cursorText, String.length]
      omega⟩
  obtain ⟨m, hm⟩ := hfuel
  have hid : ∀ c, c ∈ "id".toList → plainChar c = true := by decide
  have hts : ∀ c, c ∈ "timestamp".toList → plainChar c = true := by decide
  have hv2 : parseValue (m + 1) (dquote :: (toISOString t ++ dquote :: ['}']))
      = some (.str (String.mk (toISOString t)), ['}']) :=
    parseValue_string m _ _ (toISOString_plain t)
  have hm2 := parseMembers_last (m + 1) "timestamp".toList _ [] _ [("id", .num n)] hts hv2
  have hv1 := parseValue_integer (m + 1) n
    (dquote :: ("timestamp".toList ++ dquote :: ':' :: dquote
      :: (toISOString t ++ [dquote, '}']))) hn
  have hm1 := parseMembers_more (m + 2) "id".toList _ _ _ [] hid hv1
  unfold refJsonParse
  rw [hm]
  show (match parseValue (m + 3 + 1) (cursorText n t) with
    | some (v, rest) => if skipWs rest = [] then some v else none
    | none => none) = _
  unfold cursorText
  have hs : setField (String.mk "id".toList) (JSValue.num n) [] = [("id", .num n)] := rfl
  rw [parseValue_object, hm1, hs, hm2]
  simp [setField, skipWs]

theorem isoDateParse_range (s : List Char) (t : Int) (h : isoDateParse s = some t) :
    t.natAbs ≤ MAX_TIME.natAbs := by
  simp only [isoDateParse, Option.bind_eq_bind, Option.bind_eq_some] at h
  obtain ⟨y, _, s1, _, mo, _, s2, _, d, _, tod, _, h⟩ := h
  unfold makeTime at h
  split at h
  · unfold timeClip at h
    split at h
    · injection h with h
      rw [← h]
      assumption
    · contradiction
  · contradiction

theorem read_saved (n t : Int) (hn : n.natAbs ≤ EXACT_INTEGER_LIMIT)
    (ht : t.natAbs ≤ MAX_TIME.natAbs) :
    read_last refLib (some (save_last_data refLib (.num n) (some t)))
      = some (.ok ⟨.num n, some (some t)⟩) := by
  have h1 : refLib.jsonParse (save_last_data refLib (.num n) (some t))
      = some (.obj [("id", .num n), ("timestamp", .str (String.mk (toISOString t)))]) := by
    show refJsonParse (refJsonStringify _) = _
    rw [stringify_cursor, parse_cursor n t hn]
  have h2 : refLib.dateParse (String.mk (toISOString t)) = some t :=
    isoDateParse_toISOString t ht
  simp [read_last, read_last_calls, firstSettled, read_last_try, h1, newDate, h2,
    List.lookup]

/-- C10, as amended: on a cache file holding a JSON object whose `id` is an
integer number and whose `timestamp` is a date string, `read_last` yields that
id and that date; writing them back with `save_last` stores the text
`{"id":<id>,"timestamp":"<date in the format of toISOString>"}`, which need not
be the text the file held; and a following `read_last` returns the same
cursor. -/
theorem save_read_roundtrip (data : String) (fields : List (String × JSValue)) (n t : Int)
    (iso : String)
    (hp : refLib.jsonParse data = some (.obj fields))
    (hid : fields.lookup "id" = some (.num n))
    (hts : fields.lookup "timestamp" = some (.str iso))
    (hd : refLib.dateParse iso = some t)
    (hn : n.natAbs ≤ EXACT_INTEGER_LIMIT) :
    read_last refLib (some data) = some (.ok ⟨.num n, some (some t)⟩)
    ∧ (save_last refLib (.num n) (some t) (some data) none).1
        = some (String.mk (cursorText n t))
    ∧ read_last refLib (save_last refLib (.num n) (some t) (some data) none).1
        = read_last refLib (some data) := by
  have ht : t.natAbs ≤ MAX_TIME.natAbs := isoDateParse_range iso.toList t hd
  have h1 : read_last refLib (some data) = some (.ok ⟨.num n, some (some t)⟩) := by
    simp [read_last, read_last_calls, firstSettled, read_last_try, hp, hid, hts, newDate, hd]
  refine ⟨h1, ?_, ?_⟩
  · show some (refJsonStringify _) = _
    rw [stringify_cursor]
  · rw [h1]
    exact read_saved n t hn ht

set_option maxRecDepth 1000000 in
/-- The amended C10 on the cursor file `{"id":5,"timestamp":"2020-01-02T00:00:00Z"}`:
the cursor read after the write is the cursor read before it. -/
theorem save_read_roundtrip_witness :
    read_last refLib (some scenarioCursorFile)
      = some (.ok ⟨.num 5, some (some 1577923200000)⟩)
    ∧ read_last refLib
        (save_last refLib (.num 5) (some 1577923200000) (some scenarioCursorFile) none).1
      = read_last refLib (some scenarioCursorFile) :=
  ⟨(save_read_roundtrip scenarioCursorFile
      [("id", .num 5), ("timestamp", .str "2020-01-02T00:00:00Z")]
      5 1577923200000 "2020-01-02T00:00:00Z"
      (by rfl) (by rfl) (by rfl) (by decide) (by decide)).1,
   (save_read_roundtrip scenarioCursorFile
      [("id", .num 5), ("timestamp", .str "2020-01-02T00:00:00Z")]
      5 1577923200000 "2020-01-02T00:00:00Z"
      (by rfl) (by rfl) (by rfl) (by decide) (by decide)).2.2⟩

set_option maxRecDepth 1000000 in
/-- C10 fails as stated: the well-formed cursor file
`{"id":5,"timestamp":"2020-01-02T00:00:00Z"}` is read as id 5 and the date
2020-01-02, and writing these back stores a text with the milliseconds
spelled out, which is not the text the file held. -/
theorem save_last_rewrites_file :
    read_last refLib (some scenarioCursorFile)
      = some (.ok ⟨.num 5, some (some 1577923200000)⟩)
    ∧ (save_last refLib (.num 5) (some 1577923200000) (some scenarioCursorFile) none).1
      = some "\x7b\"id\":5,\"timestamp\":\"2020-01-02T00:00:00.000Z\"\x7d"
    ∧ (save_last refLib (.num 5) (some 1577923200000) (some scenarioCursorFile) none).1
      ≠ some scenarioCursorFile :=
  ⟨by rfl, by decide, by decide⟩

set_option maxRecDepth 1000000 in
/-- C5 on Scenario 1 and on Scenario 2: from the zero cursor the one event of
the feed is posted once; from a cursor of 2020-01-03 nothing is posted. -/
theorem main_notifies_witness :
    (main refLib none scenarioResponse none).posts = ["a opened \"Fix\" - <u>"]
    ∧ (main refLib (some laterCursorFile) scenarioResponse none).posts = [] :=
  ⟨((main_notifies refLib none scenarioResponse none _ _ [scenarioEvent]
      (by rfl) (by rfl) (by rfl)).2.1).trans (by decide),
   (main_notifies refLib (some laterCursorFile) scenarioResponse none _ _ [scenarioEvent] (by rfl) (by rfl) (by rfl)).2.2.2
      (by
        intro e he
        simp only [List.mem_singleton] at he
        subst he
        decide)⟩

set_option maxRecDepth 1000000 in
/-- C7 on Scenario 3 (a network error) and on a body that is not JSON. -/
theorem main_fetch_failure_witness :
    (main refLib (some scenarioCursorFile) ⟨some .ioError, none⟩ none).posts = []
    ∧ (main refLib (some scenarioCursorFile) ⟨some .ioError, none⟩ none).file
        = some scenarioCursorFile
    ∧ (main refLib (some scenarioCursorFile) ⟨none, some "<html>"⟩ none).saved = none :=
  ⟨(main_fetch_failure refLib (some scenarioCursorFile) ⟨some .ioError, none⟩ none
      (Or.inl (by decide))).2.1,
   (main_fetch_failure refLib (some scenarioCursorFile) ⟨some .ioError, none⟩ none
      (Or.inl (by decide))).2.2.2.1,
   (main_fetch_failure refLib (some scenarioCursorFile) ⟨none, some "<html>"⟩ none
      (Or.inr (by rfl))).2.2.1⟩

set_option maxRecDepth 1000000 in
/-- C3 on Scenario 2: with a cursor dated 2020-01-03 and the feed of Scenario 1
the cache file is left as it was and `save_last` is not called. -/
theorem main_cursor_monotone_witness :
    (main refLib (some laterCursorFile) scenarioResponse none).file = some laterCursorFile
    ∧ (main refLib (some laterCursorFile) scenarioResponse none).saved = none :=
  (main_cursor_monotone refLib (some laterCursorFile) scenarioResponse none).2
    _ _ [scenarioEvent] (by rfl) (by rfl) (by rfl)
    (by
      intro e he
      simp only [List.mem_singleton] at he
      subst he
      decide)

end GithubDiscord
